import Mathlib

/-!
# Marshalling handlers of the host runtime: a shallow embedding

Embedding of `languages/assemblyscript/handler_strings.go` (profile A string
handler), `languages/golang/handler_time.go` (profile B time handler),
`functions/registration.go` (function registry), `utils/sentry.go` (telemetry
filter) and `graphql/engine/engine.go` (query fields of the schema).

Conventions.
* Guest linear memory is a list of bytes; the accessors follow the bounds
  discipline of the WebAssembly runtime's `api.Memory` (an access of `n` bytes at
  `offset` succeeds iff `offset + n ≤ len`, computed without wrap-around).
* `uint32` / `uint64` values are natural numbers; every place where the Go code
  can wrap (`offset - 8`, `offset + 8`, `uint32(vals[0])`, `uint32(len(bytes))`,
  `uint64(ext)`, `int64(x)`) carries an explicit modulus.
* A Go result `(value, error)` whose value is `nil` on every error path is an
  `Except`; `Write`/`Encode` results keep the cleaner next to the error, because
  the source returns both.
-/

namespace Modus

/-! ## Machine words and guest memory -/

/-- One byte of guest linear memory. -/
abbrev Byte := Fin 256

/-- Guest linear memory (`api.Memory`): the byte buffer. -/
abbrev Memory := List Byte

/-- Truncation of a natural number to a byte. -/
def byte (n : Nat) : Byte := ⟨n % 256, Nat.mod_lt _ (by decide)⟩

/-- Two to the 32: the modulus of `uint32` arithmetic. -/
def U32 : Nat := 4294967296

/-- Two to the 64: the modulus of `uint64` arithmetic. -/
def U64 : Nat := 18446744073709551616

/-- Little-endian value of a byte sequence. -/
def leNat : List Byte → Nat
  | [] => 0
  | b :: bs => b.val + 256 * leNat bs

/-- Little-endian bytes, `n` of them, of a natural number. -/
def leBytes : Nat → Nat → List Byte
  | 0, _ => []
  | n + 1, v => byte v :: leBytes n (v / 256)

/-- Conversion `uint64(x)` of a signed 64-bit value. -/
def toU64 (x : Int) : Nat := (x % 18446744073709551616).toNat

/-- Conversion `int64(x)` of an unsigned 64-bit value. -/
def toI64 (x : Nat) : Int :=
  if x % U64 < 9223372036854775808 then ((x % U64 : Nat) : Int)
  else ((x % U64 : Nat) : Int) - 18446744073709551616

namespace Memory

/-- Accessor `Memory.Read(offset, byteCount)`: a view of `byteCount` bytes, or not ok. -/
def Read (m : Memory) (offset byteCount : Nat) : Option (List Byte) :=
  if offset + byteCount ≤ m.length then some ((m.drop offset).take byteCount) else none

/-- Accessor `Memory.Write(offset, bytes)`: overwrite in place, or not ok. -/
def Write (m : Memory) (offset : Nat) (bytes : List Byte) : Option Memory :=
  if offset + bytes.length ≤ m.length then
    some (m.take offset ++ bytes ++ m.drop (offset + bytes.length))
  else none

/-- Accessor `Memory.ReadUint32Le(offset)`. -/
def ReadUint32Le (m : Memory) (offset : Nat) : Option Nat :=
  (m.Read offset 4).map leNat

/-- Accessor `Memory.ReadUint64Le(offset)`. -/
def ReadUint64Le (m : Memory) (offset : Nat) : Option Nat :=
  (m.Read offset 8).map leNat

/-- Accessor `Memory.WriteUint32Le(offset, v)`. -/
def WriteUint32Le (m : Memory) (offset v : Nat) : Option Memory :=
  m.Write offset (leBytes 4 v)

/-- Accessor `Memory.WriteUint64Le(offset, v)`. -/
def WriteUint64Le (m : Memory) (offset v : Nat) : Option Memory :=
  m.Write offset (leBytes 8 v)

end Memory

/-! ## Host values, errors, cleaners -/

/-- Go `time.Time`: the private three-field layout the handlers alias
(`wall uint64`, `ext int64`, `loc *time.Location`); `loc = none` is the nil
pointer, which Go reads as UTC. -/
structure Time where
  wall : Nat
  ext : Int
  loc : Option Nat
  deriving DecidableEq, Repr

/-- A timestamp whose words fit their machine types. -/
def Time.valid (t : Time) : Prop :=
  t.wall < U64 ∧ -9223372036854775808 ≤ t.ext ∧ t.ext < 9223372036854775808

instance (t : Time) : Decidable t.valid := by
  unfold Time.valid; exact inferInstance

/-- Host value (`any`): the carriers the two handlers can meet. `record` stands
for any carrier that `cast.ToStringE` rejects and that is not a timestamp (a
struct or map without a `String()` or `Error()` method). -/
inductive HostValue where
  | absent
  | text (s : String)
  | integer (i : Int)
  | boolean (b : Bool)
  | timestamp (t : Time)
  | record
  deriving DecidableEq, Repr

/-- Errors of the two handlers, one constructor per error site of the source. -/
inductive Err where
  | addressZero            -- "unexpected address 0 reading managed object of type %s"
  | readPointer            -- "failed to read string pointer"
  | writePointer           -- "failed to write string pointer to WASM memory"
  | slotCount (got : Nat)  -- "expected 1 value when decoding a string, got %d"
  | nullPointer            -- "unexpected null pointer for non-nullable string"
  | readClassId            -- "failed to read class id of the WASM object"
  | notAString             -- "pointer is not to a string"
  | readLength             -- "failed to read string length"
  | readData (size : Nat)  -- "failed to read string data from WASM memory (size: %d)"
  | nilValue               -- "unexpected nil value for non-nullable string"
  | cast                   -- error of cast.ToStringE
  | writeData (size : Nat) -- "failed to write string data to WASM memory (size: %d)"
  | guest (code : Nat)     -- error returned by the guest allocator or pin
  | readWall               -- "failed to read time.Time.wall from WASM memory"
  | readExt                -- "failed to read time.Time.ext from WASM memory"
  | writeWall              -- "failed to write time.Time.wall to WASM memory"
  | writeExt               -- "failed to write time.Time.ext to WASM memory"
  | notTime                -- "expected time.Time, got %T"
  | decodeTime             -- "decodeTime: expected 3 values"
  deriving DecidableEq, Repr

deriving instance DecidableEq for Except

/-- Cleaner (`utils.Cleaner`): the guest pointers to unpin; the nil cleaner is
the empty list. -/
abbrev Cleaner := List Nat

/-- What the guest's allocate-and-pin export hands back: pointer, cleaner,
error, and the guest memory after the guest code ran. -/
structure AllocResult where
  ptr : Nat
  cln : Cleaner
  err : Option Err
  mem : Memory
  deriving DecidableEq, Repr

/-- Behaviour of the guest allocator: a function of the memory it runs on, the
requested size and the class id. -/
abbrev Allocator := Memory → Nat → Nat → AllocResult

/-- The adapter as the handlers see it: guest memory and the log of the
`(size, classId)` requests made to allocate-and-pin. -/
structure WasmAdapter where
  mem : Memory
  allocCalls : List (Nat × Nat)
  deriving DecidableEq, Repr

/-- Modelled from the spec: `wasmAdapter.allocateAndPinMemory` is not among the
sources. The guest export `allocate(size, classId) -> ptr` runs guest code, so
its behaviour is the parameter `alloc`; the request is logged. -/
def allocateAndPinMemory (alloc : Allocator) (wa : WasmAdapter) (size id : Nat) :
    AllocResult × WasmAdapter :=
  let r := alloc wa.mem size id
  (r, { mem := r.mem, allocCalls := wa.allocCalls ++ [(size, id)] })

/-! ## UTF-16 -/

/-- UTF-16 code units of one code point. -/
def utf16Units (c : Char) : List Nat :=
  if c.toNat < 65536 then [c.toNat]
  else [55296 + (c.toNat - 65536) / 1024, 56320 + (c.toNat - 65536) % 1024]

/-- Code units to code points; an unpaired surrogate becomes U+FFFD. -/
def utf16Decode : List Nat → List Char
  | [] => []
  | [u] => (if u < 55296 ∨ 57344 ≤ u then Char.ofNat u else Char.ofNat 65533) :: []
  | u :: v :: rest =>
    if u < 55296 ∨ 57344 ≤ u then Char.ofNat u :: utf16Decode (v :: rest)
    else if u < 56320 ∧ 56320 ≤ v ∧ v < 57344 then
      Char.ofNat ((u - 55296) * 1024 + (v - 56320) + 65536) :: utf16Decode rest
    else Char.ofNat 65533 :: utf16Decode (v :: rest)

/-- Little-endian bytes of a sequence of code units. -/
def unitsToBytes : List Nat → List Byte
  | [] => []
  | u :: us => byte u :: byte (u / 256) :: unitsToBytes us

/-- Code units of a little-endian byte sequence (a trailing odd byte is dropped). -/
def bytesToUnits : List Byte → List Nat
  | b0 :: b1 :: bs => (b0.val + 256 * b1.val) :: bytesToUnits bs
  | _ => []

/-- Modelled from the spec: `utils.EncodeUTF16` is not among the sources. "Strings
are encoded as UTF-16 LE": two bytes per code unit, low byte first. -/
def EncodeUTF16 (s : String) : List Byte :=
  unitsToBytes (s.data.flatMap utf16Units)

/-- Modelled from the spec: `utils.DecodeUTF16` is not among the sources. The
bytes are decoded "in the profile's string encoding (UTF-16 LE for profile A)". -/
def DecodeUTF16 (bytes : List Byte) : String :=
  String.mk (utf16Decode (bytesToUnits bytes))

/-- Modelled from the spec: `utils.HasNil` is not among the sources; it detects
the absent input ("If the input is absent, write pointer 0 (nullable) or fail"). -/
def HasNil : HostValue → Bool
  | .absent => true
  | _ => false

/-- The library conversion `cast.ToStringE`: text is itself, integers and
booleans take their canonical textual form, a value with a `String()` method
(`fmt.Stringer`, which `time.Time` is) converts to what that method returns,
other carriers fail. `timeString` is the library method `time.Time.String`. -/
def ToStringE (timeString : Time → String) : HostValue → Except Err String
  | .text s => .ok s
  | .integer i => .ok (toString i)
  | .boolean b => .ok (if b then "true" else "false")
  | .timestamp t => .ok (timeString t)
  | _ => .error .cast

/-! ## Profile A string handler (`handler_strings.go`) -/

/-- The string handler: of its fields only `nullable` decides behaviour. -/
structure stringHandler where
  nullable : Bool
  deriving DecidableEq, Repr

/-- Result of `doWriteString` / `doWriteBytes`: `(uint32, utils.Cleaner, error)`. -/
structure PtrResult where
  ptr : Nat
  cln : Cleaner
  err : Option Err
  deriving DecidableEq, Repr

/-- Result of `Write`: `(utils.Cleaner, error)`. -/
structure WriteResult where
  cln : Cleaner
  err : Option Err
  deriving DecidableEq, Repr

/-- Result of `Encode`: `([]uint64, utils.Cleaner, error)`; `vals = none` is the
nil slice. -/
structure EncodeResult where
  vals : Option (List Nat)
  cln : Cleaner
  err : Option Err
  deriving DecidableEq, Repr

namespace stringHandler

/-- Source method `stringHandler.doReadString`. -/
def doReadString (h : stringHandler) (m : Memory) (offset : Nat) : Except Err HostValue :=
  if offset = 0 then
    if h.nullable then .ok .absent else .error .nullPointer
  else
    match m.ReadUint32Le ((offset + U32 - 8) % U32) with
    | none => .error .readClassId
    | some id =>
      if id ≠ 2 then .error .notAString
      else
        match m.ReadUint32Le ((offset + U32 - 4) % U32) with
        | none => .error .readLength
        | some size =>
          if size = 0 then .ok (.text "")
          else
            match m.Read offset size with
            | none => .error (.readData size)
            | some bytes => .ok (.text (DecodeUTF16 bytes))

/-- Source method `stringHandler.Read`. -/
def Read (h : stringHandler) (m : Memory) (offset : Nat) : Except Err HostValue :=
  if offset = 0 then .error .addressZero
  else
    match m.ReadUint32Le offset with
    | none => .error .readPointer
    | some ptr => h.doReadString m ptr

/-- Source method `stringHandler.Decode`. -/
def Decode (h : stringHandler) (m : Memory) (vals : List Nat) : Except Err HostValue :=
  match vals with
  | [v] => h.doReadString m (v % U32)
  | _ => .error (.slotCount vals.length)

/-- Source method `stringHandler.doWriteBytes`. -/
def doWriteBytes (alloc : Allocator) (wa : WasmAdapter) (bytes : List Byte) :
    PtrResult × WasmAdapter :=
  let size := bytes.length % U32
  let (r, wa1) := allocateAndPinMemory alloc wa size 2
  match r.err with
  | some e => ({ ptr := 0, cln := r.cln, err := some e }, wa1)
  | none =>
    match wa1.mem.Write r.ptr bytes with
    | none => ({ ptr := 0, cln := r.cln, err := some (.writeData size) }, wa1)
    | some m2 => ({ ptr := r.ptr, cln := r.cln, err := none }, { wa1 with mem := m2 })

/-- Source method `stringHandler.doWriteString`. -/
def doWriteString (h : stringHandler) (ts : Time → String) (alloc : Allocator) (wa : WasmAdapter)
    (obj : HostValue) : PtrResult × WasmAdapter :=
  if HasNil obj then
    if h.nullable then ({ ptr := 0, cln := [], err := none }, wa)
    else ({ ptr := 0, cln := [], err := some .nilValue }, wa)
  else
    match ToStringE ts obj with
    | .error e => ({ ptr := 0, cln := [], err := some e }, wa)
    | .ok str => doWriteBytes alloc wa (EncodeUTF16 str)

/-- Source method `stringHandler.Write`. -/
def Write (h : stringHandler) (ts : Time → String)
    (alloc : Allocator) (wa : WasmAdapter) (offset : Nat)
    (obj : HostValue) : WriteResult × WasmAdapter :=
  let (r, wa1) := h.doWriteString ts alloc wa obj
  match r.err with
  | some e => ({ cln := r.cln, err := some e }, wa1)
  | none =>
    match wa1.mem.WriteUint32Le offset r.ptr with
    | none => ({ cln := r.cln, err := some .writePointer }, wa1)
    | some m2 => ({ cln := r.cln, err := none }, { wa1 with mem := m2 })

/-- Source method `stringHandler.Encode`. -/
def Encode (h : stringHandler) (ts : Time → String) (alloc : Allocator) (wa : WasmAdapter)
    (obj : HostValue) : EncodeResult × WasmAdapter :=
  let (r, wa1) := h.doWriteString ts alloc wa obj
  match r.err with
  | some e => ({ vals := none, cln := r.cln, err := some e }, wa1)
  | none => ({ vals := some [r.ptr], cln := r.cln, err := none }, wa1)

end stringHandler

/-! ## Profile B time handler (`handler_time.go`) -/

/-- Source function `timeFromVals`: the two words with a nil location. -/
def timeFromVals (wall : Nat) (ext : Int) : Time :=
  { wall := wall, ext := ext, loc := none }

/-- Source function `getTimeVals`: the first two words of the timestamp. -/
def getTimeVals (t : Time) : Nat × Int := (t.wall, t.ext)

/-- The time handler; it has no behaviour-deciding field. -/
structure timeHandler where
  deriving DecidableEq, Repr

namespace timeHandler

/-- Source method `timeHandler.Read`. -/
def Read (_h : timeHandler) (m : Memory) (offset : Nat) : Except Err HostValue :=
  if offset = 0 then .ok .absent
  else
    match m.ReadUint64Le offset with
    | none => .error .readWall
    | some wall =>
      match m.ReadUint64Le ((offset + 8) % U32) with
      | none => .error .readExt
      | some x => .ok (.timestamp (timeFromVals wall (toI64 x)))

/-- Source method `timeHandler.Write`. A failed second store leaves the first one in memory. -/
def Write (_h : timeHandler) (wa : WasmAdapter) (offset : Nat) (obj : HostValue) :
    WriteResult × WasmAdapter :=
  match obj with
  | .timestamp t =>
    let (wall, ext) := getTimeVals t
    match wa.mem.WriteUint64Le offset wall with
    | none => ({ cln := [], err := some .writeWall }, wa)
    | some m1 =>
      match m1.WriteUint64Le ((offset + 8) % U32) (toU64 ext) with
      | none => ({ cln := [], err := some .writeExt }, { wa with mem := m1 })
      | some m2 => ({ cln := [], err := none }, { wa with mem := m2 })
  | _ => ({ cln := [], err := some .notTime }, wa)

/-- Source method `timeHandler.Decode`. -/
def Decode (_h : timeHandler) (_m : Memory) (vals : List Nat) : Except Err HostValue :=
  match vals with
  | [wall, x, _] => .ok (.timestamp (timeFromVals wall (toI64 x)))
  | _ => .error .decodeTime

/-- Source method `timeHandler.Encode`. -/
def Encode (_h : timeHandler) (wa : WasmAdapter) (obj : HostValue) :
    EncodeResult × WasmAdapter :=
  match obj with
  | .timestamp t =>
    let (wall, ext) := getTimeVals t
    ({ vals := some [wall, toU64 ext, 0], cln := [], err := none }, wa)
  | _ => ({ vals := some [0], cln := [], err := some .notTime }, wa)

end timeHandler

/-! ## Handler layout information (`NewStringHandler`, `NewTimeHandler`) -/

/-- Modelled from the spec: `langsupport.TypeHandlerInfo` is not among the
sources. "Attributes: descriptor; size in bytes of the type's in-memory
footprint; slotCount (how many 64-bit registers it occupies at a call
boundary)". -/
structure TypeHandlerInfo where
  typeName : String
  size : Nat
  slotCount : Nat
  deriving DecidableEq, Repr

/-- Modelled from the spec: `langsupport.NewTypeHandlerInfo(typ, rt, size,
slotCount)` is not among the sources; it records its arguments (the reflected
host type `rt` plays no part in the layout). -/
def NewTypeHandlerInfo (typ : String) (size slotCount : Nat) : TypeHandlerInfo :=
  { typeName := typ, size := size, slotCount := slotCount }

/-- Source method `planner.NewStringHandler`: four bytes in memory, one slot;
`isNullable` is the type registry's `_typeInfo.IsNullable`. -/
def NewStringHandler (isNullable : String → Bool) (typ : String) :
    TypeHandlerInfo × stringHandler :=
  (NewTypeHandlerInfo typ 4 1, { nullable := isNullable typ })

/-- Source method `planner.NewTimeHandler`: twenty bytes in memory, three slots. -/
def NewTimeHandler (typ : String) : TypeHandlerInfo × timeHandler :=
  (NewTypeHandlerInfo typ 20 3, {})

/-! ## Concrete guests used to exercise the theorems -/

/-- A memory of `n` zero bytes. -/
def zeros (n : Nat) : Memory := List.replicate n 0

/-- A memory of `n` bytes `0xFF`. -/
def ones (n : Nat) : Memory := List.replicate n 255

/-- A guest allocator that always hands out the block at address 16, after
writing the class id at 8 and the byte length at 12. -/
def bumpAlloc : Allocator := fun m size id =>
  match (m.WriteUint32Le 8 id).bind (fun m1 => m1.WriteUint32Le 12 size) with
  | some m2 => { ptr := 16, cln := [16], err := none, mem := m2 }
  | none => { ptr := 0, cln := [], err := some (.guest 1), mem := m }

/-- A 32-byte memory holding an ArrayBuffer object (class id 1, byte length 4)
at address 16 and, at offset 4, a pointer to it. -/
def arrayBufferMem : Memory :=
  [0, 0, 0, 0, 16, 0, 0, 0, 1, 0, 0, 0, 4, 0, 0, 0,
   0x68, 0, 0x69, 0, 0, 0, 0, 0, 0, 0, 0, 0, 0, 0, 0, 0]

/-- A stand-in for `time.Time.String` on the examples: the rendering of the
instant 2024-01-02T03:04:05Z in UTC, 29 characters. -/
def utcString : Time → String := fun _ => "2024-01-02 03:04:05 +0000 UTC"

/-- The instant 2024-01-02T03:04:05Z as Go builds it without a monotonic clock
reading: `wall = 0`, `ext` = seconds since January 1 of year 1. -/
def t20240102 : Time := { wall := 0, ext := 63839761445, loc := none }

/-- A 24-byte memory with `wall = 1`, `ext = 2` at offset 4 and zero bytes after. -/
def timeMemA : Memory := [0, 0, 0, 0, 1, 0, 0, 0, 0, 0, 0, 0, 2, 0, 0, 0, 0, 0, 0, 0, 0, 0, 0, 0]

/-- The same 16 bytes at offset 4, other bytes around them, `0xFF` in the loc word. -/
def timeMemB : Memory :=
  [9, 9, 9, 9, 1, 0, 0, 0, 0, 0, 0, 0, 2, 0, 0, 0, 0, 0, 0, 0, 255, 255, 255, 255]

/-! ## Function registry (`functions/registration.go`) -/

/-- Go map with string keys: an association list in which `set` keeps one entry
per key. Iteration order is the list order; the registry code does not depend
on it. -/
abbrev GoMap (V : Type) := List (String × V)

namespace GoMap

/-- Map lookup `m[k]`, with `none` for a missing key. -/
def get {V : Type} (m : GoMap V) (k : String) : Option V :=
  (m.find? (fun e => e.1 = k)).map (fun e => e.2)

/-- Map assignment `m[k] = v`. -/
def set {V : Type} (m : GoMap V) (k : String) (v : V) : GoMap V :=
  (k, v) :: m.filter (fun e => e.1 ≠ k)

/-- Map deletion `delete(m, k)`. -/
def delete {V : Type} (m : GoMap V) (k : String) : GoMap V :=
  m.filter (fun e => e.1 ≠ k)

end GoMap

/-- Function signature (`plugins.FunctionSignature`): the registry reads `Name`;
parameters and return type are carried along. -/
structure FunctionSignature where
  Name : String
  Parameters : List (String × String)
  ReturnType : String
  deriving DecidableEq, Repr

/-- Plugin (`plugins.Plugin`): its name, build id and the functions its metadata
declares (`Metadata.Functions`). -/
structure Plugin where
  Name : String
  BuildId : String
  Functions : List FunctionSignature
  deriving DecidableEq, Repr

/-- Registry entry `FunctionInfo`; `Plugin` is a pointer, here the address of a
cell of the heap of plugin variables. -/
structure FunctionInfo where
  Function : FunctionSignature
  Plugin : Nat
  deriving DecidableEq, Repr

/-- State the registration works on: the global map `Functions`, the map
`r.functions` of the registration under way, and the heap of `plugins.Plugin`
variables that `FunctionInfo.Plugin` pointers address. (`r.types` is never
read or written.) -/
structure RegState where
  Functions : GoMap FunctionInfo
  functions : GoMap Bool
  heap : List Plugin
  deriving DecidableEq, Repr

/-- Source method `registration.registerPlugin`, called with the pointer `plugin`:
every function of the pointed-to plugin's metadata is stored under its name,
with that pointer, and marked in `r.functions`. Logging is left out. -/
def registerPlugin (st : RegState) (plugin : Nat) : RegState :=
  match st.heap[plugin]? with
  | none => st
  | some p =>
    p.Functions.foldl
      (fun s fn =>
        { s with
          Functions := s.Functions.set fn.Name { Function := fn, Plugin := plugin },
          functions := s.functions.set fn.Name true })
      st

/-- Source method `registration.cleanup`: every key of `Functions` that is not
marked in `r.functions` is deleted. Logging is left out. -/
def cleanup (st : RegState) : RegState :=
  { st with
    Functions := st.Functions.foldl
      (fun F e => if (st.functions.get e.1).getD false then F else F.delete e.1)
      st.Functions }

/-- One iteration of `for _, plugin := range plugins { r.registerPlugin(ctx, &plugin) }`.
With `perIteration` (Go 1.22 and later) the iteration has a fresh variable
`plugin`; otherwise the one variable of the loop, at address `cell`, is
assigned the next element. Either way `registerPlugin` gets its address. -/
def registerStep (perIteration : Bool) (cell : Nat) (st : RegState) (p : Plugin) : RegState :=
  if perIteration then registerPlugin { st with heap := st.heap ++ [p] } st.heap.length
  else registerPlugin { st with heap := st.heap.set cell p } cell

/-- Source function `RegisterFunctions`, on the global map `Functions` and the
heap of plugin variables. `perIteration` is the loop-variable semantics that
the module's `go` directive selects (the directive is not among the sources):
one variable per iteration from Go 1.22 on, one variable for the whole loop
before. The result is the new `Functions` and the heap. -/
def RegisterFunctions (perIteration : Bool) (Functions : GoMap FunctionInfo)
    (heap : List Plugin) (plugins : List Plugin) : GoMap FunctionInfo × List Plugin :=
  let s0 : RegState :=
    { Functions := Functions, functions := [],
      heap := if perIteration then heap else heap ++ [{ Name := "", BuildId := "", Functions := [] }] }
  let s2 := cleanup (plugins.foldl (registerStep perIteration heap.length) s0)
  (s2.Functions, s2.heap)

/-- What a registry entry says once its pointer is followed: the signature and
the plugin the `Plugin` pointer refers to. -/
def registryView (reg : GoMap FunctionInfo × List Plugin) (name : String) :
    Option (FunctionSignature × Option Plugin) :=
  (reg.1.get name).map (fun i => (i.Function, reg.2[i.Plugin]?))

/-- The last signature named `name` in a list of declarations. -/
def lastIn : List FunctionSignature → String → Option FunctionSignature
  | [], _ => none
  | f :: fs, name =>
    match lastIn fs name with
    | some g => some g
    | none => if f.Name = name then some f else none

/-- Specification side of the registry: the signature declared under `name` by
the last plugin of the list that declares it, with that plugin. -/
def lastDecl : List Plugin → String → Option (FunctionSignature × Plugin)
  | [], _ => none
  | p :: ps, name =>
    match lastDecl ps name with
    | some x => some x
    | none => (lastIn p.Functions name).map (fun fn => (fn, p))

/-- Two plugins: `alpha` declares `a`, `beta` declares `b`. -/
def pluginAlpha : Plugin :=
  { Name := "alpha", BuildId := "1",
    Functions := [{ Name := "a", Parameters := [], ReturnType := "string" }] }

/-- The second plugin of the example. -/
def pluginBeta : Plugin :=
  { Name := "beta", BuildId := "2",
    Functions := [{ Name := "b", Parameters := [("x", "i32")], ReturnType := "i32" }] }

/-- A prior registry with a stale entry `old` and an outdated entry for `a`. -/
def staleRegistry : GoMap FunctionInfo × List Plugin :=
  ([("old", { Function := { Name := "old", Parameters := [], ReturnType := "void" }, Plugin := 0 }),
    ("a", { Function := { Name := "a", Parameters := [], ReturnType := "i64" }, Plugin := 0 })],
   [{ Name := "gone", BuildId := "0", Functions := [] }])

/-! ## Telemetry filter (`utils/sentry.go`) -/

/-- Outcome of a Go call that may panic instead of returning. -/
inductive Go (α : Type) where
  | panics
  | returns (a : α)
  deriving DecidableEq, Repr

/-- Library function `strings.HasPrefix`. -/
def HasPrefix (s pre : String) : Bool := pre.data.isPrefixOf s.data

/-- Stack frame (`sentry.Frame`): the two fields the filter reads and writes. -/
structure Frame where
  Filename : String
  AbsPath : String
  deriving DecidableEq, Repr

/-- Stack trace (`sentry.Stacktrace`). -/
structure Stacktrace where
  Frames : List Frame
  deriving DecidableEq, Repr

/-- Exception record (`sentry.Exception`); `ExcType` is its field `Type`, and
`Stacktrace = none` is the nil pointer. -/
structure Exception where
  ExcType : String
  Value : String
  Stacktrace : Option Stacktrace
  deriving DecidableEq, Repr

/-- Event (`sentry.Event`): the `Extra` map and the exception list. -/
structure Event where
  Extra : GoMap HostValue
  Exception : List Exception
  deriving DecidableEq, Repr

/-- Body of the inner loop of `sentryBeforeSend` for one frame: a frame without
file name whose absolute path starts with the root gets the path relative to
the root as file name. -/
def adjustFrame (rootSourcePath : String) (f : Frame) : Frame :=
  if f.Filename = "" ∧ f.AbsPath ≠ "" ∧ HasPrefix f.AbsPath rootSourcePath then
    { f with Filename := String.mk (f.AbsPath.data.drop rootSourcePath.data.length) }
  else f

/-- What the inner loop leaves of one exception: every frame of its stack trace
adjusted, everything else as it was. -/
def adjustException (rootSourcePath : String) (e : Exception) : Exception :=
  { e with
    Stacktrace := Option.map (fun st => { Frames := st.Frames.map (adjustFrame rootSourcePath) })
      e.Stacktrace }

/-- Outer loop of `sentryBeforeSend`: `st := *e.Stacktrace` panics on a nil stack
trace; the frames are rewritten in place (the copy `st` shares their array). -/
def adjustExceptions (rootSourcePath : String) : List Exception → Go (List Exception)
  | [] => .returns []
  | e :: es =>
    match e.Stacktrace with
    | none => .panics
    | some st =>
      match adjustExceptions rootSourcePath es with
      | .panics => .panics
      | .returns es2 =>
        .returns ({ e with Stacktrace := some { Frames := st.Frames.map (adjustFrame rootSourcePath) } } :: es2)

/-- Source function `sentryBeforeSend`, called with the pointer `event` to the event
object `ev`: the result is the returned pointer (`none` is nil) and the event
object after the call. -/
def sentryBeforeSend (rootSourcePath : String) (event : Nat) (ev : Event) :
    Go (Option Nat × Event) :=
  if ev.Extra.get "user_visible" = some (.text "true") then .returns (none, ev)
  else
    match adjustExceptions rootSourcePath ev.Exception with
    | .panics => .panics
    | .returns es => .returns (some event, { ev with Exception := es })

/-- An event marked user-visible, with one exception that has no stack trace. -/
def userVisibleEvent : Event :=
  { Extra := [("user_visible", .text "true")],
    Exception := [{ ExcType := "error", Value := "boom", Stacktrace := none }] }

/-- An event whose `user_visible` entry is the boolean true, with one frame under
the root `/src`. -/
def internalEvent : Event :=
  { Extra := [("user_visible", .boolean true)],
    Exception := [{ ExcType := "error", Value := "boom",
                    Stacktrace := some { Frames := [{ Filename := "", AbsPath := "/src/a.go" }] } }] }

/-! ## Query fields of the schema (`graphql/engine/engine.go`) -/

/-- Field definition of the parsed document, with its name resolved
(`doc.Input.ByteSliceString(field.Name)`). -/
structure FieldDefinition where
  Name : String
  deriving DecidableEq, Repr

/-- Object type definition: its resolved name and `FieldsDefinition.Refs`, the
indices of its fields in `doc.FieldDefinitions`. -/
structure ObjectTypeDefinition where
  Name : String
  FieldsDefinition : List Nat
  deriving DecidableEq, Repr

/-- Parsed schema document (`ast.Document`), the two tables the function reads. -/
structure Document where
  ObjectTypeDefinitions : List ObjectTypeDefinition
  FieldDefinitions : List FieldDefinition
  deriving DecidableEq, Repr

/-- A Go slice of strings; `none` is the nil slice. -/
abbrev StringSlice := Option (List String)

/-- Built-in `append(fields, x)`. -/
def StringSlice.append (fields : StringSlice) (x : String) : StringSlice :=
  some (fields.getD [] ++ [x])

/-- Inner loop of `getAllQueryFields` over the field references of the query
type; `doc.FieldDefinitions[fieldRef]` panics when the index is out of range. -/
def collectFields (doc : Document) : List Nat → StringSlice → Go StringSlice
  | [], fields => .returns fields
  | fieldRef :: refs, fields =>
    match doc.FieldDefinitions[fieldRef]? with
    | none => .panics
    | some field =>
      if ¬ HasPrefix field.Name "__" then collectFields doc refs (fields.append field.Name)
      else collectFields doc refs fields

/-- Outer loop of `getAllQueryFields`: the first object type named like the query
type is processed and the loop is left (`break`). -/
def scanObjectTypes (doc : Document) (queryTypeName : String) :
    List ObjectTypeDefinition → StringSlice → Go StringSlice
  | [], fields => .returns fields
  | objectType :: rest, fields =>
    if objectType.Name = queryTypeName then collectFields doc objectType.FieldsDefinition fields
    else scanObjectTypes doc queryTypeName rest fields

/-- Source function `getAllQueryFields`, on the schema's document and query type
name; `fields` starts as `make([]string, 0)`, the empty non-nil slice. -/
def getAllQueryFields (doc : Document) (queryTypeName : String) : Go StringSlice :=
  scanObjectTypes doc queryTypeName doc.ObjectTypeDefinitions (some [])

/-- Specification side of `getAllQueryFields`: the field names, in declaration
order, of the first object type named like the query type, without the names
that start with two underscores; empty when there is no such type. -/
def queryFieldsSpec (doc : Document) (queryTypeName : String) : List String :=
  match doc.ObjectTypeDefinitions.find? (fun t => t.Name = queryTypeName) with
  | none => []
  | some t =>
    (t.FieldsDefinition.filterMap (fun r => (doc.FieldDefinitions[r]?).map (fun f => f.Name))).filter
      (fun n => ¬ HasPrefix n "__")

/-- A document with a type `Other`, the query type `Query` and a second type
named `Query`. -/
def sampleDocument : Document :=
  { ObjectTypeDefinitions :=
      [{ Name := "Other", FieldsDefinition := [0] },
       { Name := "Query", FieldsDefinition := [1, 2, 3] },
       { Name := "Query", FieldsDefinition := [4] }],
    FieldDefinitions :=
      [{ Name := "secret" }, { Name := "hello" }, { Name := "__typename" }, { Name := "add" },
       { Name := "shadow" }] }

/-! ## Words and memory: lemmas -/

theorem byte_val (n : Nat) : (byte n).val = n % 256 := rfl

theorem leBytes_length (n v : Nat) : (leBytes n v).length = n := by
  induction n generalizing v with
  | zero => rfl
  | succ k ih => simp [leBytes, ih]

theorem leNat_leBytes (n v : Nat) : leNat (leBytes n v) = v % 256 ^ n := by
  induction n generalizing v with
  | zero => simp [leBytes, leNat, Nat.mod_one]
  | succ k ih =>
    simp only [leBytes, leNat, ih, byte_val]
    rw [pow_succ, Nat.mul_comm (256 ^ k) 256, Nat.mod_mul]

namespace Memory

theorem Write_length {m m2 : Memory} {off : Nat} {bs : List Byte}
    (h : m.Write off bs = some m2) : m2.length = m.length := by
  unfold Write at h
  split at h
  · injection h with h; subst h
    simp only [List.length_append, List.length_take, List.length_drop]
    omega
  · cases h

theorem Write_bound {m m2 : Memory} {off : Nat} {bs : List Byte}
    (h : m.Write off bs = some m2) : off + bs.length ≤ m.length := by
  unfold Write at h
  split at h
  · assumption
  · cases h

theorem Write_eq {m m2 : Memory} {off : Nat} {bs : List Byte}
    (h : m.Write off bs = some m2) :
    m2 = m.take off ++ bs ++ m.drop (off + bs.length) := by
  unfold Write at h
  split at h
  · injection h with h; exact h.symm
  · cases h

theorem Read_Write_same {m m2 : Memory} {off : Nat} {bs : List Byte}
    (h : m.Write off bs = some m2) : m2.Read off bs.length = some bs := by
  have hb := Write_bound h
  have hl := Write_length h
  have he := Write_eq h
  unfold Read
  rw [if_pos (by omega)]
  subst he
  have h1 : (List.take off m).length = off := by simp; omega
  rw [List.append_assoc, List.drop_append_eq_append_drop, h1]
  simp [List.drop_eq_nil_of_le, h1]

theorem Read_Write_disjoint {m m2 : Memory} {off : Nat} {bs : List Byte}
    (h : m.Write off bs = some m2) (a n : Nat)
    (hd : a + n ≤ off ∨ off + bs.length ≤ a) : m2.Read a n = m.Read a n := by
  have hb := Write_bound h
  have hl := Write_length h
  have he := Write_eq h
  unfold Read
  rw [hl]
  split
  · congr 1
    apply List.ext_getElem?
    intro i
    subst he
    simp only [List.getElem?_take, List.getElem?_drop]
    split
    · rw [List.append_assoc]
      rcases hd with hd | hd
      · rw [List.getElem?_append_left (by simp; omega)]
        simp [List.getElem?_take]; omega
      · rw [List.getElem?_append_right (by simp; omega)]
        rw [List.getElem?_append_right (by simp; omega)]
        simp only [List.length_take, List.getElem?_drop]
        congr 1; omega
    · rfl
  · rfl

end Memory

/-! ## UTF-16: lemmas -/

theorem char_range (c : Char) :
    c.toNat < 55296 ∨ (57343 < c.toNat ∧ c.toNat < 1114112) := by
  have h := c.valid
  simpa [UInt32.isValidChar, Nat.isValidChar, Char.toNat] using h

theorem utf16Units_lt (c : Char) : ∀ u ∈ utf16Units c, u < 65536 := by
  intro u hu
  have hr := char_range c
  unfold utf16Units at hu
  split at hu
  · simp at hu; omega
  · simp at hu; omega

theorem utf16Decode_units (c : Char) (rest : List Nat) :
    utf16Decode (utf16Units c ++ rest) = c :: utf16Decode rest := by
  have hr := char_range c
  unfold utf16Units
  split
  · rename_i hlt
    have hns : c.toNat < 55296 ∨ 57344 ≤ c.toNat := by omega
    cases rest with
    | nil => simp [utf16Decode, hns]
    | cons v rest => simp [utf16Decode, hns]
  · rename_i hge
    have e : (55296 + (c.toNat - 65536) / 1024 - 55296) * 1024 +
        (56320 + (c.toNat - 65536) % 1024 - 56320) + 65536 = c.toNat := by omega
    have h1 : ¬ (55296 + (c.toNat - 65536) / 1024 < 55296 ∨
        57344 ≤ 55296 + (c.toNat - 65536) / 1024) := by omega
    have h2 : 55296 + (c.toNat - 65536) / 1024 < 56320 ∧
        56320 ≤ 56320 + (c.toNat - 65536) % 1024 ∧
        56320 + (c.toNat - 65536) % 1024 < 57344 := by omega
    show utf16Decode (_ :: _ :: rest) = _
    simp only [utf16Decode, if_neg h1, if_pos h2, e, Char.ofNat_toNat]

theorem utf16Decode_flatMap (cs : List Char) :
    utf16Decode (cs.flatMap utf16Units) = cs := by
  induction cs with
  | nil => simp [utf16Decode]
  | cons c cs ih => rw [List.flatMap_cons, utf16Decode_units, ih]

theorem bytesToUnits_unitsToBytes (us : List Nat) (h : ∀ u ∈ us, u < 65536) :
    bytesToUnits (unitsToBytes us) = us := by
  induction us with
  | nil => rfl
  | cons u us ih =>
    have hu : u < 65536 := h u (by simp)
    have ih2 := ih (fun v hv => h v (by simp [hv]))
    simp only [unitsToBytes, bytesToUnits, ih2, byte]
    congr 1
    omega

theorem unitsToBytes_length (us : List Nat) : (unitsToBytes us).length = 2 * us.length := by
  induction us with
  | nil => rfl
  | cons u us ih => simp [unitsToBytes, ih]; omega

theorem DecodeUTF16_EncodeUTF16 (s : String) : DecodeUTF16 (EncodeUTF16 s) = s := by
  unfold DecodeUTF16 EncodeUTF16
  rw [bytesToUnits_unitsToBytes, utf16Decode_flatMap]
  intro u hu
  rw [List.mem_flatMap] at hu
  obtain ⟨c, _, hc⟩ := hu
  exact utf16Units_lt c u hc

/-! ## String handler: unfolding lemmas -/

theorem EncodeUTF16_length_zero (s : String) (h : (EncodeUTF16 s).length = 0) : s = "" := by
  have h0 : EncodeUTF16 s = [] := List.length_eq_zero.mp h
  have := DecodeUTF16_EncodeUTF16 s
  rw [h0] at this
  exact this.symm

namespace stringHandler

theorem doWriteBytes_allocErr (alloc : Allocator) (wa : WasmAdapter) (bytes : List Byte)
    (e : Err) (he : (alloc wa.mem (bytes.length % U32) 2).err = some e) :
    doWriteBytes alloc wa bytes =
      ({ ptr := 0, cln := (alloc wa.mem (bytes.length % U32) 2).cln, err := some e },
       { mem := (alloc wa.mem (bytes.length % U32) 2).mem,
         allocCalls := wa.allocCalls ++ [(bytes.length % U32, 2)] }) := by
  simp only [doWriteBytes, allocateAndPinMemory, he]

theorem doWriteBytes_writeErr (alloc : Allocator) (wa : WasmAdapter) (bytes : List Byte)
    (he : (alloc wa.mem (bytes.length % U32) 2).err = none)
    (hw : (alloc wa.mem (bytes.length % U32) 2).mem.Write
      (alloc wa.mem (bytes.length % U32) 2).ptr bytes = none) :
    doWriteBytes alloc wa bytes =
      ({ ptr := 0, cln := (alloc wa.mem (bytes.length % U32) 2).cln,
         err := some (.writeData (bytes.length % U32)) },
       { mem := (alloc wa.mem (bytes.length % U32) 2).mem,
         allocCalls := wa.allocCalls ++ [(bytes.length % U32, 2)] }) := by
  simp only [doWriteBytes, allocateAndPinMemory, he, hw]

theorem doWriteBytes_ok (alloc : Allocator) (wa : WasmAdapter) (bytes : List Byte)
    (m2 : Memory)
    (he : (alloc wa.mem (bytes.length % U32) 2).err = none)
    (hw : (alloc wa.mem (bytes.length % U32) 2).mem.Write
      (alloc wa.mem (bytes.length % U32) 2).ptr bytes = some m2) :
    doWriteBytes alloc wa bytes =
      ({ ptr := (alloc wa.mem (bytes.length % U32) 2).ptr,
         cln := (alloc wa.mem (bytes.length % U32) 2).cln, err := none },
       { mem := m2, allocCalls := wa.allocCalls ++ [(bytes.length % U32, 2)] }) := by
  simp only [doWriteBytes, allocateAndPinMemory, he, hw]

theorem doWriteString_text (h : stringHandler) (ts : Time → String)
    (alloc : Allocator) (wa : WasmAdapter)
    (s : String) :
    h.doWriteString ts alloc wa (.text s) = doWriteBytes alloc wa (EncodeUTF16 s) := rfl

theorem Encode_eq (h : stringHandler) (ts : Time → String) (alloc : Allocator) (wa : WasmAdapter)
    (obj : HostValue) :
    h.Encode ts alloc wa obj =
      (match (h.doWriteString ts alloc wa obj).1.err with
       | some e => { vals := none, cln := (h.doWriteString ts alloc wa obj).1.cln, err := some e }
       | none => { vals := some [(h.doWriteString ts alloc wa obj).1.ptr],
                   cln := (h.doWriteString ts alloc wa obj).1.cln, err := none },
       (h.doWriteString ts alloc wa obj).2) := by
  unfold Encode
  cases h1 : (h.doWriteString ts alloc wa obj).1.err <;> simp [h1]

/-- Success of `doWriteBytes` pins down the allocator's answer and the store. -/
theorem doWriteBytes_success (alloc : Allocator) (wa : WasmAdapter) (bytes : List Byte)
    (hs : (doWriteBytes alloc wa bytes).1.err = none) :
    (alloc wa.mem (bytes.length % U32) 2).err = none ∧
    ∃ m2, (alloc wa.mem (bytes.length % U32) 2).mem.Write
      (alloc wa.mem (bytes.length % U32) 2).ptr bytes = some m2 := by
  cases he : (alloc wa.mem (bytes.length % U32) 2).err with
  | some e => rw [doWriteBytes_allocErr alloc wa bytes e he] at hs; cases hs
  | none =>
    refine ⟨rfl, ?_⟩
    cases hw : (alloc wa.mem (bytes.length % U32) 2).mem.Write
        (alloc wa.mem (bytes.length % U32) 2).ptr bytes with
    | none => rw [doWriteBytes_writeErr alloc wa bytes he hw] at hs; cases hs
    | some m2 => exact ⟨m2, rfl⟩

/-- Reading back a string object whose header and payload are in place. -/
theorem doReadString_object (h : stringHandler) (m : Memory) (p : Nat) (s : String)
    (hp8 : 8 ≤ p) (hp32 : p < U32)
    (hid : m.ReadUint32Le (p - 8) = some 2)
    (hsz : m.ReadUint32Le (p - 4) = some (EncodeUTF16 s).length)
    (hdata : m.Read p (EncodeUTF16 s).length = some (EncodeUTF16 s)) :
    h.doReadString m p = .ok (.text s) := by
  have ha8 : (p + U32 - 8) % U32 = p - 8 := by unfold U32 at *; omega
  have ha4 : (p + U32 - 4) % U32 = p - 4 := by unfold U32 at *; omega
  have hpz : p ≠ 0 := by omega
  unfold doReadString
  rw [if_neg hpz, ha8, ha4, hid, hsz]
  by_cases hz : (EncodeUTF16 s).length = 0
  · have hs := EncodeUTF16_length_zero s hz
    simp only [ne_eq, not_true_eq_false, if_false, if_pos hz]
    rw [hs]
  · simp only [ne_eq, not_true_eq_false, if_false, if_neg hz, hdata, DecodeUTF16_EncodeUTF16]

end stringHandler

namespace Memory
theorem Write_getElem_outside {m m2 : Memory} {off : Nat} {bs : List Byte}
    (h : m.Write off bs = some m2) (i : Nat) (hi : i < off ∨ off + bs.length ≤ i) :
    m2[i]? = m[i]? := by
  have hb := Write_bound h
  have he := Write_eq h
  subst he
  rw [List.append_assoc]
  rcases hi with hi | hi
  · rw [List.getElem?_append_left (by simp; omega)]
    simp [List.getElem?_take, hi]
  · rw [List.getElem?_append_right (by simp; omega)]
    rw [List.getElem?_append_right (by simp; omega)]
    simp only [List.length_take, List.getElem?_drop]
    congr 1; omega
end Memory

namespace stringHandler
theorem doWriteBytes_allocCalls (alloc : Allocator) (wa : WasmAdapter) (bytes : List Byte) :
    (doWriteBytes alloc wa bytes).2.allocCalls
      = wa.allocCalls ++ [(bytes.length % U32, 2)] := by
  cases he : (alloc wa.mem (bytes.length % U32) 2).err with
  | some e => rw [doWriteBytes_allocErr alloc wa bytes e he]
  | none =>
    cases hw : (alloc wa.mem (bytes.length % U32) 2).mem.Write
        (alloc wa.mem (bytes.length % U32) 2).ptr bytes with
    | none => rw [doWriteBytes_writeErr alloc wa bytes he hw]
    | some m2 => rw [doWriteBytes_ok alloc wa bytes m2 he hw]

theorem Encode_text_success (h : stringHandler) (ts : Time → String)
    (alloc : Allocator) (wa : WasmAdapter)
    (s : String) (hsucc : (h.Encode ts alloc wa (.text s)).1.err = none) :
    (doWriteBytes alloc wa (EncodeUTF16 s)).1.err = none := by
  rw [Encode_eq, doWriteString_text] at hsucc
  cases h1 : (doWriteBytes alloc wa (EncodeUTF16 s)).1.err with
  | none => rfl
  | some e => rw [h1] at hsucc; cases hsucc
end stringHandler

/-! ## Time handler: lemmas -/

theorem toI64_toU64 (e : Int) (h1 : -9223372036854775808 ≤ e) (h2 : e < 9223372036854775808) :
    toI64 (toU64 e) = e := by
  unfold toI64 toU64 U64
  split <;> omega

theorem toU64_lt (e : Int) : toU64 e < U64 := by
  unfold toU64 U64
  omega

namespace timeHandler

/-- What a successful `Write` of a timestamp did to memory. -/
theorem Write_success (h : timeHandler) (wa : WasmAdapter) (o : Nat) (t : Time)
    (hs : (h.Write wa o (.timestamp t)).1.err = none) :
    ∃ m1 m2, wa.mem.Write o (leBytes 8 t.wall) = some m1 ∧
      m1.Write ((o + 8) % U32) (leBytes 8 (toU64 t.ext)) = some m2 ∧
      h.Write wa o (.timestamp t) = ({ cln := [], err := none }, { wa with mem := m2 }) := by
  unfold Write at hs ⊢
  simp only [getTimeVals, Memory.WriteUint64Le] at hs ⊢
  cases h1 : wa.mem.Write o (leBytes 8 t.wall) with
  | none => simp [h1] at hs
  | some m1 =>
    simp only [h1] at hs ⊢
    cases h2 : m1.Write ((o + 8) % U32) (leBytes 8 (toU64 t.ext)) with
    | none => simp [h2] at hs
    | some m2 => exact ⟨m1, m2, rfl, h2, rfl⟩

end timeHandler

namespace Memory
theorem Read_congr {m1 m2 : Memory} (a n : Nat) (hn : 0 < n)
    (hag : ∀ i, a ≤ i → i < a + n → m1[i]? = m2[i]?) : m1.Read a n = m2.Read a n := by
  have hlast := hag (a + n - 1) (by omega) (by omega)
  have k1 : m1[a + n - 1]? = none ↔ m1.length ≤ a + n - 1 := List.getElem?_eq_none_iff
  have k2 : m2[a + n - 1]? = none ↔ m2.length ≤ a + n - 1 := List.getElem?_eq_none_iff
  rw [hlast] at k1
  have hlen : a + n ≤ m1.length ↔ a + n ≤ m2.length := by
    constructor
    · intro h1
      by_contra h2
      have := k1.mp (k2.mpr (by omega))
      omega
    · intro h2
      by_contra h1
      have := k2.mp (k1.mpr (by omega))
      omega
  unfold Read
  by_cases h1 : a + n ≤ m1.length
  · rw [if_pos h1, if_pos (hlen.mp h1)]
    congr 1
    apply List.ext_getElem?
    intro i
    simp only [List.getElem?_take, List.getElem?_drop]
    split
    · exact hag (a + i) (by omega) (by omega)
    · rfl
  · rw [if_neg h1, if_neg (fun h => h1 (hlen.mpr h))]
end Memory


namespace stringHandler

theorem doWriteBytes_cln (alloc : Allocator) (wa : WasmAdapter) (bytes : List Byte) :
    (doWriteBytes alloc wa bytes).1.cln = (alloc wa.mem (bytes.length % U32) 2).cln := by
  cases he : (alloc wa.mem (bytes.length % U32) 2).err with
  | some e => rw [doWriteBytes_allocErr alloc wa bytes e he]
  | none =>
    cases hw : (alloc wa.mem (bytes.length % U32) 2).mem.Write
        (alloc wa.mem (bytes.length % U32) 2).ptr bytes with
    | none => rw [doWriteBytes_writeErr alloc wa bytes he hw]
    | some m2 => rw [doWriteBytes_ok alloc wa bytes m2 he hw]

theorem doWriteString_coerced (h : stringHandler) (ts : Time → String)
    (alloc : Allocator) (wa : WasmAdapter)
    (obj : HostValue) (s : String) (hnn : HasNil obj = false) (hs : ToStringE ts obj = .ok s) :
    h.doWriteString ts alloc wa obj = doWriteBytes alloc wa (EncodeUTF16 s) := by
  simp only [doWriteString, hnn, hs, Bool.false_eq_true, if_false]

theorem doWriteString_early (h : stringHandler) (ts : Time → String)
    (alloc : Allocator) (wa : WasmAdapter)
    (obj : HostValue) (hearly : HasNil obj = true ∨ ∃ e, ToStringE ts obj = .error e) :
    (h.doWriteString ts alloc wa obj).1.cln = [] ∧ (h.doWriteString ts alloc wa obj).2 = wa := by
  unfold doWriteString
  by_cases hn : HasNil obj = true
  · rw [if_pos hn]; split <;> exact ⟨rfl, rfl⟩
  · rcases hearly with hh | ⟨e, he⟩
    · exact absurd hh hn
    · rw [if_neg hn, he]; exact ⟨rfl, rfl⟩

theorem Write_unfold (h : stringHandler) (ts : Time → String)
    (alloc : Allocator) (wa : WasmAdapter) (o : Nat)
    (obj : HostValue) :
    h.Write ts alloc wa o obj =
      match (h.doWriteString ts alloc wa obj).1.err with
      | some e => ({ cln := (h.doWriteString ts alloc wa obj).1.cln, err := some e },
                   (h.doWriteString ts alloc wa obj).2)
      | none =>
        match (h.doWriteString ts alloc wa obj).2.mem.WriteUint32Le o
            (h.doWriteString ts alloc wa obj).1.ptr with
        | none => ({ cln := (h.doWriteString ts alloc wa obj).1.cln, err := some .writePointer },
                   (h.doWriteString ts alloc wa obj).2)
        | some m2 => ({ cln := (h.doWriteString ts alloc wa obj).1.cln, err := none },
                      { (h.doWriteString ts alloc wa obj).2 with mem := m2 }) := by
  unfold Write
  rfl

theorem Write_cln (h : stringHandler) (ts : Time → String)
    (alloc : Allocator) (wa : WasmAdapter) (o : Nat)
    (obj : HostValue) :
    (h.Write ts alloc wa o obj).1.cln = (h.doWriteString ts alloc wa obj).1.cln := by
  rw [Write_unfold]
  split
  · rfl
  · split <;> rfl

theorem Write_allocCalls (h : stringHandler) (ts : Time → String)
    (alloc : Allocator) (wa : WasmAdapter) (o : Nat)
    (obj : HostValue) :
    (h.Write ts alloc wa o obj).2.allocCalls = (h.doWriteString ts alloc wa obj).2.allocCalls := by
  rw [Write_unfold]
  split
  · rfl
  · split <;> rfl

theorem Encode_cln (h : stringHandler) (ts : Time → String) (alloc : Allocator) (wa : WasmAdapter)
    (obj : HostValue) :
    (h.Encode ts alloc wa obj).1.cln = (h.doWriteString ts alloc wa obj).1.cln := by
  rw [Encode_eq]
  split <;> rfl

end stringHandler

/-! ## Function registry: lemmas -/

namespace GoMap

theorem get_nil {V : Type} (k : String) : get ([] : GoMap V) k = none := rfl

theorem get_cons {V : Type} (e : String × V) (m : GoMap V) (k : String) :
    get (e :: m) k = if e.1 = k then some e.2 else get m k := by
  unfold get
  by_cases h : e.1 = k
  · simp [List.find?_cons, h]
  · simp [List.find?_cons, h]

theorem get_delete {V : Type} (m : GoMap V) (k k2 : String) :
    get (delete m k) k2 = if k2 = k then none else get m k2 := by
  induction m with
  | nil => simp [delete, get_nil]
  | cons e m ih =>
    unfold delete at ih ⊢
    by_cases hk : e.1 = k
    · rw [List.filter_cons_of_neg (by simpa using hk), ih, get_cons]
      by_cases h2 : k2 = k
      · simp [h2]
      · have : ¬ e.1 = k2 := fun h => h2 (h ▸ hk)
        simp [h2, this]
    · rw [List.filter_cons_of_pos (by simpa using hk), get_cons, get_cons, ih]
      by_cases h2 : k2 = k
      · have : ¬ e.1 = k2 := fun h => hk (h.trans h2)
        simp [h2, this]
        intro hh; exact absurd hh hk
      · simp [h2]

theorem get_set {V : Type} (m : GoMap V) (k : String) (v : V) (k2 : String) :
    get (set m k v) k2 = if k2 = k then some v else get m k2 := by
  have hd := get_delete m k k2
  unfold delete at hd
  unfold set
  rw [get_cons, hd]
  by_cases h2 : k2 = k
  · simp [h2]
  · have : ¬ k = k2 := fun h => h2 h.symm
    simp [h2, this]

theorem get_eq_none_of_not_mem {V : Type} (m : GoMap V) (k : String)
    (h : ∀ e ∈ m, e.1 ≠ k) : get m k = none := by
  induction m with
  | nil => rfl
  | cons e m ih =>
    rw [get_cons, if_neg (h e (by simp))]
    exact ih (fun e2 h2 => h e2 (by simp [h2]))

end GoMap

/-- Effect of the deletion loop of `cleanup` over a list of entries. -/
theorem cleanup_fold_get (marked : String → Bool) (l : GoMap FunctionInfo)
    (F : GoMap FunctionInfo) (name : String) :
    GoMap.get (l.foldl (fun F e => if marked e.1 then F else F.delete e.1) F) name
      = if marked name = false ∧ (∃ e ∈ l, e.1 = name) then none else GoMap.get F name := by
  induction l generalizing F with
  | nil => simp
  | cons e l ih =>
    rw [List.foldl_cons, ih]
    have hex : (∃ e2 ∈ e :: l, e2.1 = name) ↔ (e.1 = name ∨ ∃ e2 ∈ l, e2.1 = name) := by
      simp [List.mem_cons]
    simp only [hex]
    by_cases hen : e.1 = name
    · by_cases he : marked e.1 = true
      · have hm : marked name = true := by rw [← hen]; exact he
        simp only [he, if_true, hm, Bool.true_eq_false, false_and, if_false]
      · have hm : marked name = false := by rw [← hen]; simpa using he
        have hr : (if marked name = false ∧ (e.1 = name ∨ ∃ e2 ∈ l, e2.1 = name)
            then (none : Option FunctionInfo) else GoMap.get F name) = none :=
          if_pos ⟨hm, Or.inl hen⟩
        rw [hr]
        simp only [he, Bool.false_eq_true, if_false, GoMap.get_delete, if_pos hen.symm]
        split <;> rfl
    · have hiff : (e.1 = name ∨ ∃ e2 ∈ l, e2.1 = name) ↔ (∃ e2 ∈ l, e2.1 = name) :=
        ⟨fun h => h.elim (fun h => absurd h hen) id, Or.inr⟩
      simp only [hiff]
      have hg : GoMap.get (if marked e.1 = true then F else GoMap.delete F e.1) name
          = GoMap.get F name := by
        split
        · rfl
        · rw [GoMap.get_delete, if_neg (fun h => hen h.symm)]
      rw [hg]

theorem cleanup_get (st : RegState) (name : String) :
    (cleanup st).Functions.get name
      = if (st.functions.get name).getD false then st.Functions.get name else none := by
  unfold cleanup
  simp only
  rw [cleanup_fold_get (fun k => (st.functions.get k).getD false)]
  by_cases hm : (st.functions.get name).getD false = true
  · simp [hm]
  · have hmf : (st.functions.get name).getD false = false := by simpa using hm
    rw [if_neg hm]
    by_cases hl : ∃ e ∈ st.Functions, e.1 = name
    · rw [if_pos ⟨hmf, hl⟩]
    · rw [if_neg (fun h => hl h.2)]
      exact GoMap.get_eq_none_of_not_mem _ _ (fun e he hen => hl ⟨e, he, hen⟩)

theorem cleanup_heap (st : RegState) : (cleanup st).heap = st.heap := rfl

/-- Effect of the loop of `registerPlugin` over the declarations `fns`. -/
theorem registerFns_fold (a : Nat) (fns : List FunctionSignature) (s : RegState)
    (name : String) :
    let s2 := fns.foldl
      (fun s fn =>
        { s with
          Functions := s.Functions.set fn.Name { Function := fn, Plugin := a },
          functions := s.functions.set fn.Name true })
      s
    s2.heap = s.heap ∧
    s2.Functions.get name
      = (match lastIn fns name with
         | some fn => some { Function := fn, Plugin := a }
         | none => s.Functions.get name) ∧
    s2.functions.get name
      = (match lastIn fns name with
         | some _ => some true
         | none => s.functions.get name) := by
  induction fns generalizing s with
  | nil => exact ⟨rfl, rfl, rfl⟩
  | cons f fs ih =>
    simp only [List.foldl_cons]
    obtain ⟨h1, h2, h3⟩ := ih
      { s with
        Functions := s.Functions.set f.Name { Function := f, Plugin := a },
        functions := s.functions.set f.Name true }
    refine ⟨h1, ?_, ?_⟩
    · rw [h2]
      simp only [lastIn]
      cases hl : lastIn fs name with
      | some g => rfl
      | none =>
        simp only [GoMap.get_set]
        by_cases hn : f.Name = name
        · simp [hn]
        · have : ¬ name = f.Name := fun h => hn h.symm
          simp [hn, this]
    · rw [h3]
      simp only [lastIn]
      cases hl : lastIn fs name with
      | some g => rfl
      | none =>
        simp only [GoMap.get_set]
        by_cases hn : f.Name = name
        · simp [hn]
        · have : ¬ name = f.Name := fun h => hn h.symm
          simp [hn, this]

theorem registerPlugin_spec (st : RegState) (a : Nat) (p : Plugin)
    (hp : st.heap[a]? = some p) (name : String) :
    (registerPlugin st a).heap = st.heap ∧
    (registerPlugin st a).Functions.get name
      = (match lastIn p.Functions name with
         | some fn => some { Function := fn, Plugin := a }
         | none => st.Functions.get name) ∧
    (registerPlugin st a).functions.get name
      = (match lastIn p.Functions name with
         | some _ => some true
         | none => st.functions.get name) := by
  unfold registerPlugin
  rw [hp]
  exact registerFns_fold a p.Functions st name

theorem lastDecl_append_singleton (ps : List Plugin) (p : Plugin) (name : String) :
    lastDecl (ps ++ [p]) name
      = (match lastIn p.Functions name with
         | some fn => some (fn, p)
         | none => lastDecl ps name) := by
  induction ps with
  | nil =>
    simp only [List.nil_append, lastDecl]
    cases lastIn p.Functions name <;> rfl
  | cons q qs ih =>
    show (match lastDecl (qs ++ [p]) name with
      | some x => some x
      | none => (lastIn q.Functions name).map (fun fn => (fn, q))) = _
    rw [ih]
    simp only [lastDecl]
    cases h1 : lastIn p.Functions name with
    | some fn => rfl
    | none => rfl


theorem loop_perIteration (cell : Nat) (s0 : RegState) (hs0 : s0.functions = [])
    (ps : List Plugin) :
    (ps.foldl (registerStep true cell) s0).heap = s0.heap ++ ps ∧
    (∀ name, (ps.foldl (registerStep true cell) s0).functions.get name
      = (lastDecl ps name).map (fun _ => true)) ∧
    (∀ name,
      match lastDecl ps name with
      | some x => ∃ a, (ps.foldl (registerStep true cell) s0).Functions.get name
            = some { Function := x.1, Plugin := a } ∧
          (ps.foldl (registerStep true cell) s0).heap[a]? = some x.2
      | none => (ps.foldl (registerStep true cell) s0).Functions.get name
          = s0.Functions.get name) := by
  induction ps using List.reverseRecOn with
  | nil =>
    refine ⟨by simp, fun name => ?_, fun name => ?_⟩
    · simp [lastDecl, hs0, GoMap.get_nil]
    · simp [lastDecl]
  | append_singleton ps p ih =>
    obtain ⟨ih1, ih2, ih3⟩ := ih
    rw [List.foldl_append, List.foldl_cons, List.foldl_nil]
    generalize (ps.foldl (registerStep true cell) s0) = s at ih1 ih2 ih3 ⊢
    have hstep : registerStep true cell s p
        = registerPlugin { s with heap := s.heap ++ [p] } s.heap.length := by
      simp [registerStep]
    have hp : ({ s with heap := s.heap ++ [p] } : RegState).heap[s.heap.length]? = some p := by
      simp
    rw [hstep]
    have hspec := registerPlugin_spec { s with heap := s.heap ++ [p] } s.heap.length p hp
    refine ⟨?_, fun name => ?_, fun name => ?_⟩
    · rw [(hspec "").1]
      simp [ih1]
    · rw [(hspec name).2.2, lastDecl_append_singleton]
      cases h1 : lastIn p.Functions name with
      | some fn => rfl
      | none => exact ih2 name
    · rw [(hspec name).2.1, (hspec name).1, lastDecl_append_singleton]
      cases h1 : lastIn p.Functions name with
      | some fn => exact ⟨s.heap.length, rfl, by simp⟩
      | none =>
        have h3 := ih3 name
        cases h2 : lastDecl ps name with
        | some x =>
          rw [h2] at h3
          obtain ⟨a, ha1, ha2⟩ := h3
          refine ⟨a, ha1, ?_⟩
          have hlt : a < s.heap.length := by
            by_contra hge
            rw [List.getElem?_eq_none (by omega)] at ha2
            cases ha2
          show (s.heap ++ [p])[a]? = some x.2
          rw [List.getElem?_append_left hlt]
          exact ha2
        | none =>
          rw [h2] at h3
          exact h3

theorem loop_shared (cell : Nat) (s0 : RegState) (hs0 : s0.functions = [])
    (hcell : cell < s0.heap.length) (ps : List Plugin) :
    (ps.foldl (registerStep false cell) s0).heap.length = s0.heap.length ∧
    (ps ≠ [] → (ps.foldl (registerStep false cell) s0).heap[cell]? = ps.getLast?) ∧
    (∀ name, (ps.foldl (registerStep false cell) s0).functions.get name
      = (lastDecl ps name).map (fun _ => true)) ∧
    (∀ name,
      match lastDecl ps name with
      | some x => (ps.foldl (registerStep false cell) s0).Functions.get name
            = some { Function := x.1, Plugin := cell }
      | none => (ps.foldl (registerStep false cell) s0).Functions.get name
          = s0.Functions.get name) := by
  induction ps using List.reverseRecOn with
  | nil =>
    refine ⟨rfl, fun h => absurd rfl h, fun name => ?_, fun name => ?_⟩
    · simp [lastDecl, hs0, GoMap.get_nil]
    · simp [lastDecl]
  | append_singleton ps p ih =>
    obtain ⟨ih1, _, ih2, ih3⟩ := ih
    rw [List.foldl_append, List.foldl_cons, List.foldl_nil]
    generalize (ps.foldl (registerStep false cell) s0) = s at ih1 ih2 ih3 ⊢
    have hstep : registerStep false cell s p
        = registerPlugin { s with heap := s.heap.set cell p } cell := by
      simp [registerStep]
    have hp : ({ s with heap := s.heap.set cell p } : RegState).heap[cell]? = some p := by
      show (s.heap.set cell p)[cell]? = some p
      rw [List.getElem?_set_self (by omega)]
    rw [hstep]
    have hspec := registerPlugin_spec { s with heap := s.heap.set cell p } cell p hp
    refine ⟨?_, fun _ => ?_, fun name => ?_, fun name => ?_⟩
    · rw [(hspec "").1]
      simp [ih1]
    · rw [(hspec "").1]
      simpa using hp
    · rw [(hspec name).2.2, lastDecl_append_singleton]
      cases h1 : lastIn p.Functions name with
      | some fn => rfl
      | none => exact ih2 name
    · rw [(hspec name).2.1, lastDecl_append_singleton]
      cases h1 : lastIn p.Functions name with
      | some fn => rfl
      | none =>
        have h3 := ih3 name
        cases h2 : lastDecl ps name with
        | some x => rw [h2] at h3; exact h3
        | none => rw [h2] at h3; exact h3

theorem lastDecl_ne_nil (ps : List Plugin) (name : String)
    (x : FunctionSignature × Plugin) (h : lastDecl ps name = some x) : ps ≠ [] := by
  intro hn
  rw [hn] at h
  cases h

/-- Closed form of the registry after `RegisterFunctions`, pointers followed. -/
theorem registryView_RegisterFunctions (perIteration : Bool) (F : GoMap FunctionInfo)
    (heap : List Plugin) (ps : List Plugin) (name : String) :
    registryView (RegisterFunctions perIteration F heap ps) name
      = (lastDecl ps name).map
          (fun x => (x.1, if perIteration then some x.2 else ps.getLast?)) := by
  unfold RegisterFunctions registryView
  simp only [cleanup_get, cleanup_heap]
  cases perIteration with
  | true =>
    simp only [if_true]
    obtain ⟨_, h2, h3⟩ := loop_perIteration heap.length
      { Functions := F, functions := [], heap := heap } rfl ps
    rw [h2 name]
    have h3n := h3 name
    cases hl : lastDecl ps name with
    | none => simp
    | some x =>
      rw [hl] at h3n
      obtain ⟨a, ha1, ha2⟩ := h3n
      simp [ha1, ha2]
  | false =>
    simp only [Bool.false_eq_true, if_false]
    obtain ⟨_, h1, h2, h3⟩ := loop_shared heap.length
      { Functions := F, functions := [],
        heap := heap ++ [{ Name := "", BuildId := "", Functions := [] }] } rfl (by simp) ps
    rw [h2 name]
    have h3n := h3 name
    cases hl : lastDecl ps name with
    | none => simp
    | some x =>
      rw [hl] at h3n
      simp [h3n, h1 (lastDecl_ne_nil ps name x hl)]

theorem lastIn_some {fs : List FunctionSignature} {name : String} {f : FunctionSignature}
    (h : lastIn fs name = some f) : f ∈ fs ∧ f.Name = name := by
  induction fs with
  | nil => cases h
  | cons g gs ih =>
    simp only [lastIn] at h
    cases hl : lastIn gs name with
    | some x =>
      rw [hl] at h
      injection h with h
      subst h
      exact ⟨List.mem_cons_of_mem _ (ih hl).1, (ih hl).2⟩
    | none =>
      rw [hl] at h
      simp only at h
      split at h
      · injection h with h
        subst h
        exact ⟨List.mem_cons_self _ _, by assumption⟩
      · cases h

theorem lastIn_none {fs : List FunctionSignature} {name : String}
    (h : lastIn fs name = none) : ∀ f ∈ fs, f.Name ≠ name := by
  induction fs with
  | nil => intro f hf; cases hf
  | cons g gs ih =>
    simp only [lastIn] at h
    cases hl : lastIn gs name with
    | some x => rw [hl] at h; cases h
    | none =>
      rw [hl] at h
      simp only at h
      intro f hf
      rcases List.mem_cons.mp hf with h1 | h1
      · subst h1
        intro hn
        rw [if_pos hn] at h
        cases h
      · exact ih hl f h1

theorem lastIn_isSome_of_mem {fs : List FunctionSignature} {name : String}
    {f : FunctionSignature} (hf : f ∈ fs) (hn : f.Name = name) :
    (lastIn fs name).isSome = true := by
  cases hl : lastIn fs name with
  | some x => rfl
  | none => exact absurd hn (lastIn_none hl f hf)

theorem lastDecl_some_split {ps : List Plugin} {name : String}
    {x : FunctionSignature × Plugin} (h : lastDecl ps name = some x) :
    ∃ pre post, ps = pre ++ x.2 :: post ∧ lastIn x.2.Functions name = some x.1 ∧
      ∀ r ∈ post, ∀ f ∈ r.Functions, f.Name ≠ name := by
  induction ps with
  | nil => cases h
  | cons p ps ih =>
    simp only [lastDecl] at h
    cases hl : lastDecl ps name with
    | some y =>
      rw [hl] at h
      injection h with h
      subst h
      obtain ⟨pre, post, h1, h2, h3⟩ := ih hl
      exact ⟨p :: pre, post, by rw [h1]; rfl, h2, h3⟩
    | none =>
      rw [hl] at h
      simp only at h
      cases hp : lastIn p.Functions name with
      | none => rw [hp] at h; cases h
      | some fn =>
        rw [hp] at h
        injection h with h
        subst h
        refine ⟨[], ps, rfl, hp, ?_⟩
        clear ih
        induction ps with
        | nil => intro r hr; cases hr
        | cons q qs ih2 =>
          simp only [lastDecl] at hl
          cases hq : lastDecl qs name with
          | some z => rw [hq] at hl; cases hl
          | none =>
            rw [hq] at hl
            simp only at hl
            intro r hr
            rcases List.mem_cons.mp hr with h1 | h1
            · subst h1
              cases hqf : lastIn r.Functions name with
              | some g => rw [hqf] at hl; cases hl
              | none => exact lastIn_none hqf
            · exact ih2 hq r h1

theorem lastDecl_isSome_iff (ps : List Plugin) (name : String) :
    (lastDecl ps name).isSome = true ↔ ∃ p ∈ ps, ∃ f ∈ p.Functions, f.Name = name := by
  induction ps with
  | nil => simp [lastDecl]
  | cons p ps ih =>
    simp only [lastDecl]
    cases hl : lastDecl ps name with
    | some y =>
      rw [hl] at ih
      obtain ⟨q, hq, f, hf, hn⟩ := ih.mp rfl
      exact ⟨fun _ => ⟨q, List.mem_cons_of_mem _ hq, f, hf, hn⟩, fun _ => rfl⟩
    | none =>
      rw [hl] at ih
      simp only
      constructor
      · intro h
        cases hp : lastIn p.Functions name with
        | none => rw [hp] at h; cases h
        | some fn =>
          exact ⟨p, List.mem_cons_self _ _, fn, (lastIn_some hp).1, (lastIn_some hp).2⟩
      · rintro ⟨q, hq, f, hf, hn⟩
        rcases List.mem_cons.mp hq with h1 | h1
        · subst h1
          have := lastIn_isSome_of_mem hf hn
          cases hp : lastIn q.Functions name with
          | none => rw [hp] at this; cases this
          | some fn => rfl
        · have := ih.mpr ⟨q, h1, f, hf, hn⟩
          cases this

theorem registryView_isSome (reg : GoMap FunctionInfo × List Plugin) (name : String) :
    (registryView reg name).isSome = (reg.1.get name).isSome := by
  unfold registryView
  cases reg.1.get name <;> rfl


/-- With one variable per iteration every entry points at the declaring plugin. -/
theorem registry_plugin_perIteration (F : GoMap FunctionInfo) (heap : List Plugin)
    (ps : List Plugin) (name : String) (sig : FunctionSignature) (pl : Option Plugin)
    (h : registryView (RegisterFunctions true F heap ps) name = some (sig, pl)) :
    ∃ pre q post, pl = some q ∧ ps = pre ++ q :: post ∧
      lastIn q.Functions name = some sig ∧
      ∀ r ∈ post, ∀ f ∈ r.Functions, f.Name ≠ name := by
  rw [registryView_RegisterFunctions] at h
  cases hl : lastDecl ps name with
  | none => rw [hl] at h; cases h
  | some x =>
    rw [hl] at h
    simp only [Option.map_some', if_true, Option.some.injEq, Prod.mk.injEq] at h
    obtain ⟨pre, post, h1, h2, h3⟩ := lastDecl_some_split hl
    rw [h.1] at h2
    exact ⟨pre, x.2, post, h.2.symm, h1, h2, h3⟩


/-- With one variable for the whole loop every entry points at that variable,
which holds the last plugin of the list. -/
theorem registry_plugin_shared (F : GoMap FunctionInfo) (heap ps : List Plugin)
    (name : String) (sig : FunctionSignature) (pl : Option Plugin)
    (h : registryView (RegisterFunctions false F heap ps) name = some (sig, pl)) :
    pl = ps.getLast? := by
  rw [registryView_RegisterFunctions] at h
  cases hl : lastDecl ps name with
  | none => rw [hl] at h; cases h
  | some x =>
    rw [hl] at h
    simp only [Option.map_some', Bool.false_eq_true, if_false, Option.some.injEq,
      Prod.mk.injEq] at h
    exact h.2.symm

/-! ## Telemetry filter and query fields: lemmas -/

theorem adjustExceptions_returns (root : String) (es : List Exception)
    (hst : ∀ e ∈ es, e.Stacktrace ≠ none) :
    adjustExceptions root es = .returns (es.map (adjustException root)) := by
  induction es with
  | nil => rfl
  | cons e es ih =>
    have h1 := ih (fun x hx => hst x (List.mem_cons_of_mem _ hx))
    cases hs : e.Stacktrace with
    | none => exact absurd hs (hst e (List.mem_cons_self _ _))
    | some st => simp only [adjustExceptions, hs, h1, List.map_cons, adjustException, Option.map_some']


theorem collectFields_spec (doc : Document) (refs : List Nat) (acc : List String)
    (hwf : ∀ r ∈ refs, r < doc.FieldDefinitions.length) :
    collectFields doc refs (some acc)
      = .returns (some (acc ++
          (refs.filterMap (fun r => (doc.FieldDefinitions[r]?).map (fun f => f.Name))).filter
            (fun n => ¬ HasPrefix n "__"))) := by
  induction refs generalizing acc with
  | nil => simp [collectFields]
  | cons r rs ih =>
    have hr : r < doc.FieldDefinitions.length := hwf r (List.mem_cons_self _ _)
    have hrs : ∀ x ∈ rs, x < doc.FieldDefinitions.length :=
      fun x hx => hwf x (List.mem_cons_of_mem _ hx)
    obtain ⟨fd, hfd⟩ : ∃ fd, doc.FieldDefinitions[r]? = some fd :=
      ⟨_, List.getElem?_eq_getElem hr⟩
    simp only [collectFields, hfd, List.filterMap_cons, Option.map_some']
    by_cases hp : HasPrefix fd.Name "__" = true
    · simp only [hp, not_true_eq_false, if_false]
      rw [ih acc hrs, List.filter_cons_of_neg (by simp [hp])]
    · simp only [hp, not_false_eq_true, if_true]
      rw [show StringSlice.append (some acc) fd.Name = some (acc ++ [fd.Name]) from rfl,
        ih _ hrs, List.filter_cons_of_pos (by simp [hp])]
      simp

theorem scanObjectTypes_spec (doc : Document) (q : String) (ts : List ObjectTypeDefinition)
    (hwf : ∀ t ∈ ts, ∀ r ∈ t.FieldsDefinition, r < doc.FieldDefinitions.length) :
    scanObjectTypes doc q ts (some [])
      = .returns (some
          (match ts.find? (fun t => t.Name = q) with
           | none => []
           | some t =>
             (t.FieldsDefinition.filterMap
               (fun r => (doc.FieldDefinitions[r]?).map (fun f => f.Name))).filter
               (fun n => ¬ HasPrefix n "__"))) := by
  induction ts with
  | nil => rfl
  | cons t ts ih =>
    by_cases hn : t.Name = q
    · simp only [scanObjectTypes, if_pos hn, List.find?_cons, hn, decide_True]
      rw [collectFields_spec doc _ [] (hwf t (List.mem_cons_self _ _))]
      simp
    · simp only [scanObjectTypes, if_neg hn, List.find?_cons, hn, decide_False]
      exact ih (fun x hx => hwf x (List.mem_cons_of_mem _ hx))

namespace stringHandler
/-- The helper `doReadString` returns absent only for the null pointer on a nullable
handler. -/
theorem doReadString_absent (h : stringHandler) (m : Memory) (p : Nat)
    (ha : h.doReadString m p = .ok .absent) : p = 0 ∧ h.nullable = true := by
  unfold doReadString at ha
  split at ha
  · rename_i hp
    split at ha
    · rename_i hn; exact ⟨hp, hn⟩
    · cases ha
  · split at ha
    · cases ha
    · split at ha
      · cases ha
      · split at ha
        · cases ha
        · split at ha
          · cases ha
          · split at ha <;> cases ha
end stringHandler

/-! ## The claims -/

/-- Claim C1. Round trip of the profile A string handler. Let `r` be what the
guest allocator answers to the request `(uint32(len(EncodeUTF16 s)), 2)`: a
pointer `r.ptr` with `8 ≤ r.ptr < 2^32` into a memory of at most `2^32` bytes
whose header words at `r.ptr - 8` and `r.ptr - 4` hold the class id 2 and the
requested size. If `Encode (text s)` succeeds, it returns the single slot
`r.ptr`, and `Decode` of that slot on the resulting memory returns `text s`.
For the nullable handler `Encode absent` returns the slot 0 without error and
`Decode` of it returns `absent`. -/
theorem C1_string_encode_decode_roundtrip (h : stringHandler) (ts : Time → String)
    (alloc : Allocator)
    (wa : WasmAdapter) (s : String) (r : AllocResult)
    (hr : alloc wa.mem ((EncodeUTF16 s).length % U32) 2 = r)
    (hsucc : (h.Encode ts alloc wa (.text s)).1.err = none)
    (hp8 : 8 ≤ r.ptr) (hp32 : r.ptr < U32) (hmem : r.mem.length ≤ U32)
    (hid : r.mem.ReadUint32Le (r.ptr - 8) = some 2)
    (hsz : r.mem.ReadUint32Le (r.ptr - 4) = some ((EncodeUTF16 s).length % U32)) :
    ((h.Encode ts alloc wa (.text s)).1.vals = some [r.ptr] ∧
      h.Decode (h.Encode ts alloc wa (.text s)).2.mem [r.ptr] = .ok (.text s)) ∧
    ((stringHandler.Encode ⟨true⟩ ts alloc wa .absent).1.vals = some [0] ∧
      (stringHandler.Encode ⟨true⟩ ts alloc wa .absent).1.err = none ∧
      stringHandler.Decode ⟨true⟩ (stringHandler.Encode ⟨true⟩ ts alloc wa .absent).2.mem [0]
        = .ok .absent) := by
  refine ⟨?_, by simp [stringHandler.Encode, stringHandler.doWriteString, HasNil,
    stringHandler.Decode, stringHandler.doReadString, U32]⟩
  have hs2 : (stringHandler.doWriteBytes alloc wa (EncodeUTF16 s)).1.err = none := by
    rw [stringHandler.Encode_eq, stringHandler.doWriteString_text] at hsucc
    cases h1 : (stringHandler.doWriteBytes alloc wa (EncodeUTF16 s)).1.err with
    | none => rfl
    | some e => rw [h1] at hsucc; cases hsucc
  obtain ⟨he, m2, hw⟩ := stringHandler.doWriteBytes_success alloc wa _ hs2
  rw [stringHandler.Encode_eq, stringHandler.doWriteString_text,
    stringHandler.doWriteBytes_ok alloc wa _ m2 he hw]
  rw [hr] at hw
  simp only [hr]
  refine ⟨trivial, ?_⟩
  have hb := Memory.Write_bound hw
  have hlen : (EncodeUTF16 s).length < U32 := by omega
  have hmod : (EncodeUTF16 s).length % U32 = (EncodeUTF16 s).length := Nat.mod_eq_of_lt hlen
  have hid2 : m2.ReadUint32Le (r.ptr - 8) = some 2 := by
    unfold Memory.ReadUint32Le at hid ⊢
    rw [Memory.Read_Write_disjoint hw _ _ (Or.inl (by omega))]; exact hid
  have hsz2 : m2.ReadUint32Le (r.ptr - 4) = some (EncodeUTF16 s).length := by
    unfold Memory.ReadUint32Le at hsz ⊢
    rw [Memory.Read_Write_disjoint hw _ _ (Or.inl (by omega)), hsz, hmod]
  show h.doReadString m2 (r.ptr % U32) = _
  rw [Nat.mod_eq_of_lt hp32]
  exact stringHandler.doReadString_object h m2 r.ptr s hp8 hp32 hid2 hsz2
    (Memory.Read_Write_same hw)

/-- The round trip of C1 on a concrete guest: `"héllo"` through `bumpAlloc`. -/
theorem C1_string_encode_decode_roundtrip_witness :
    (stringHandler.Encode ⟨false⟩ utcString bumpAlloc ⟨zeros 32, []⟩ (.text "héllo")).1.vals
        = some [16] ∧
      stringHandler.Decode ⟨false⟩
        (stringHandler.Encode ⟨false⟩ utcString bumpAlloc ⟨zeros 32, []⟩ (.text "héllo")).2.mem [16]
        = .ok (.text "héllo") :=
  (C1_string_encode_decode_roundtrip ⟨false⟩ utcString bumpAlloc ⟨zeros 32, []⟩ "héllo"
    (bumpAlloc (zeros 32) 10 2) (by decide) (by decide) (by decide) (by decide) (by decide)
    (by decide) (by decide)).1

/-- Claim C2. `Encode (text s)` asks the guest allocator exactly once. When the
UTF-16 LE encoding of `s` fits a `uint32` size (fewer than `2^32` bytes), its
length is two bytes per code unit, the one request logged is `(that length, 2)`,
and on success the resulting memory is the allocator's memory with exactly
those bytes stored at the returned pointer and the single slot is that pointer.
Every successful `Encode` with a non-zero pointer into a memory of at most
`2^32` bytes is in that case. For `"héllo"` the bytes are
`68 00 E9 00 6C 00 6C 00 6F 00` and the allocator receives `(10, 2)`. -/
theorem C2_string_encode_allocates_once (h : stringHandler) (ts : Time → String) (alloc : Allocator)
    (wa : WasmAdapter) (s : String) :
    ((EncodeUTF16 s).length < U32 →
      (EncodeUTF16 s).length = 2 * (s.data.flatMap utf16Units).length ∧
      (h.Encode ts alloc wa (.text s)).2.allocCalls
        = wa.allocCalls ++ [((EncodeUTF16 s).length, 2)] ∧
      ((h.Encode ts alloc wa (.text s)).1.err = none →
        (alloc wa.mem (EncodeUTF16 s).length 2).mem.Write
            (alloc wa.mem (EncodeUTF16 s).length 2).ptr (EncodeUTF16 s)
          = some (h.Encode ts alloc wa (.text s)).2.mem ∧
        (h.Encode ts alloc wa (.text s)).1.vals
          = some [(alloc wa.mem (EncodeUTF16 s).length 2).ptr])) ∧
    ((h.Encode ts alloc wa (.text s)).1.err = none →
      (alloc wa.mem ((EncodeUTF16 s).length % U32) 2).mem.length ≤ U32 →
      (alloc wa.mem ((EncodeUTF16 s).length % U32) 2).ptr ≠ 0 →
      (EncodeUTF16 s).length < U32) ∧
    EncodeUTF16 "héllo" = [0x68, 0x00, 0xE9, 0x00, 0x6C, 0x00, 0x6C, 0x00, 0x6F, 0x00] ∧
    (h.Encode ts alloc wa (.text "héllo")).2.allocCalls = wa.allocCalls ++ [(10, 2)] := by
  refine ⟨fun hfit => ⟨unitsToBytes_length _, ?_, fun hsucc => ?_⟩,
    fun hsucc hmem hp => ?_, by decide, ?_⟩
  · rw [stringHandler.Encode_eq, stringHandler.doWriteString_text,
      stringHandler.doWriteBytes_allocCalls, Nat.mod_eq_of_lt hfit]
  · have hs2 := stringHandler.Encode_text_success h ts alloc wa s hsucc
    obtain ⟨he, m2, hw⟩ := stringHandler.doWriteBytes_success alloc wa _ hs2
    rw [stringHandler.Encode_eq, stringHandler.doWriteString_text,
      stringHandler.doWriteBytes_ok alloc wa _ m2 he hw]
    rw [Nat.mod_eq_of_lt hfit] at hw
    rw [Nat.mod_eq_of_lt hfit]
    exact ⟨hw, rfl⟩
  · have hs2 := stringHandler.Encode_text_success h ts alloc wa s hsucc
    obtain ⟨_, m2, hw⟩ := stringHandler.doWriteBytes_success alloc wa _ hs2
    have hb := Memory.Write_bound hw
    omega
  · rw [stringHandler.Encode_eq, stringHandler.doWriteString_text,
      stringHandler.doWriteBytes_allocCalls]
    rfl

/-- Claim C2 on a concrete guest: `"héllo"` through `bumpAlloc`. -/
theorem C2_string_encode_allocates_once_witness :
    (stringHandler.Encode ⟨false⟩ utcString bumpAlloc ⟨zeros 32, []⟩ (.text "héllo")).2.allocCalls
      = [(10, 2)] ∧
    (stringHandler.Encode ⟨false⟩ utcString bumpAlloc ⟨zeros 32, []⟩ (.text "héllo")).1.vals
      = some [16] ∧
    (stringHandler.Encode ⟨false⟩ utcString bumpAlloc ⟨zeros 32, []⟩ (.text "héllo")).2.mem
      = [0, 0, 0, 0, 0, 0, 0, 0, 2, 0, 0, 0, 10, 0, 0, 0,
         0x68, 0x00, 0xE9, 0x00, 0x6C, 0x00, 0x6C, 0x00, 0x6F, 0x00, 0, 0, 0, 0, 0, 0] ∧
    (EncodeUTF16 "héllo").length < U32 :=
  ⟨((C2_string_encode_allocates_once ⟨false⟩ utcString bumpAlloc ⟨zeros 32, []⟩ "héllo").1
      (by decide)).2.1,
   (((C2_string_encode_allocates_once ⟨false⟩ utcString bumpAlloc ⟨zeros 32, []⟩ "héllo").1
      (by decide)).2.2 (by decide)).2,
   by decide,
   (C2_string_encode_allocates_once ⟨false⟩ utcString bumpAlloc ⟨zeros 32, []⟩ "héllo").2.1
      (by decide) (by decide) (by decide)⟩

/-- Claim C3. Class-identifier check of the string handler: for a non-zero
pointer `p` whose word at `p - 8` (computed in `uint32`) is readable and is not
2, `Decode` of any slot whose low 32 bits are `p`, and `Read` at any non-zero
offset that stores `p`, fail with "pointer is not to a string", whatever the rest
of memory holds. -/
theorem C3_string_class_id_check (h : stringHandler) (m : Memory) (p id : Nat)
    (hp0 : p ≠ 0) (hread : m.ReadUint32Le ((p + U32 - 8) % U32) = some id) (hne : id ≠ 2) :
    (∀ v, v % U32 = p → h.Decode m [v] = .error .notAString) ∧
    (∀ o, o ≠ 0 → m.ReadUint32Le o = some p → h.Read m o = .error .notAString) := by
  have key : h.doReadString m p = .error .notAString := by
    unfold stringHandler.doReadString
    rw [if_neg hp0, hread]
    simp only [if_pos hne]
  refine ⟨fun v hv => ?_, fun o ho hptr => ?_⟩
  · show h.doReadString m (v % U32) = _
    rw [hv]; exact key
  · unfold stringHandler.Read
    rw [if_neg ho, hptr]
    exact key

/-- Claim C3 on an ArrayBuffer object (class id 1). -/
theorem C3_string_class_id_check_witness :
    stringHandler.Decode ⟨true⟩ arrayBufferMem [16] = .error .notAString ∧
    stringHandler.Read ⟨true⟩ arrayBufferMem 4 = .error .notAString :=
  ⟨(C3_string_class_id_check ⟨true⟩ arrayBufferMem 16 1 (by decide) (by decide)
      (by decide)).1 16 (by decide),
   (C3_string_class_id_check ⟨true⟩ arrayBufferMem 16 1 (by decide) (by decide)
      (by decide)).2 4 (by decide) (by decide)⟩

/-- Claim C4. Absent input to the non-nullable handlers: `Write` at any offset and
`Encode` of the non-nullable string handler and of the time handler fail, and
the adapter afterwards is the adapter before: memory is unchanged and no
allocation request was made. -/
theorem C4_nonnullable_write_absent (ts : Time → String)
    (alloc : Allocator) (wa : WasmAdapter) (o : Nat) :
    (stringHandler.Write ⟨false⟩ ts alloc wa o .absent
        = ({ cln := [], err := some .nilValue }, wa)) ∧
    (stringHandler.Encode ⟨false⟩ ts alloc wa .absent
        = ({ vals := none, cln := [], err := some .nilValue }, wa)) ∧
    (timeHandler.Write ⟨⟩ wa o .absent = ({ cln := [], err := some .notTime }, wa)) ∧
    (timeHandler.Encode ⟨⟩ wa .absent
        = ({ vals := some [0], cln := [], err := some .notTime }, wa)) :=
  ⟨rfl, rfl, rfl, rfl⟩

/-- Claim C5. Null pointers in the string handler: on a slot whose low 32 bits are
zero, and at a non-zero offset that stores the pointer 0, the nullable handler
returns `absent` without error and the non-nullable handler fails; and for every
memory, offset and slot vector the non-nullable handler never returns `absent`
from a successful `Read` or `Decode`. -/
theorem C5_string_null_pointer (m : Memory) :
    (∀ v, v % U32 = 0 →
      stringHandler.Decode ⟨true⟩ m [v] = .ok .absent ∧
      stringHandler.Decode ⟨false⟩ m [v] = .error .nullPointer) ∧
    (∀ o, o ≠ 0 → m.ReadUint32Le o = some 0 →
      stringHandler.Read ⟨true⟩ m o = .ok .absent ∧
      stringHandler.Read ⟨false⟩ m o = .error .nullPointer) ∧
    (∀ o, stringHandler.Read ⟨false⟩ m o ≠ .ok .absent) ∧
    (∀ vals, stringHandler.Decode ⟨false⟩ m vals ≠ .ok .absent) := by
  have key : ∀ p, stringHandler.doReadString ⟨false⟩ m p ≠ .ok .absent := by
    intro p
    unfold stringHandler.doReadString
    split
    · simp
    · split
      · simp
      · split
        · simp
        · split
          · simp
          · split
            · simp
            · split <;> simp
  refine ⟨fun v hv => ?_, fun o ho hptr => ?_, fun o => ?_, fun vals => ?_⟩
  · simp [stringHandler.Decode, stringHandler.doReadString, hv]
  · simp [stringHandler.Read, stringHandler.doReadString, ho, hptr]
  · unfold stringHandler.Read
    split
    · simp
    · split
      · simp
      · exact key _
  · unfold stringHandler.Decode
    split
    · exact key _
    · simp

/-- Claim C5 on a zeroed memory: slot `2^32` and the pointer stored at offset 4. -/
theorem C5_string_null_pointer_witness :
    (stringHandler.Decode ⟨true⟩ (zeros 8) [4294967296] = .ok .absent ∧
      stringHandler.Decode ⟨false⟩ (zeros 8) [4294967296] = .error .nullPointer) ∧
    (stringHandler.Read ⟨true⟩ (zeros 8) 4 = .ok .absent ∧
      stringHandler.Read ⟨false⟩ (zeros 8) 4 = .error .nullPointer) :=
  ⟨(C5_string_null_pointer (zeros 8)).1 4294967296 (by decide),
   (C5_string_null_pointer (zeros 8)).2.1 4 (by decide) (by decide)⟩

/-- Claim C6 as stated fails: the nullable string handler does not return `absent`
from `Read` at offset 0. -/
theorem C6_read_offset_zero_counterexample :
    ¬ (stringHandler.Read ⟨true⟩ (zeros 8) 0 = .ok .absent) := by decide

/-- Claim C6, amended. `Read` at offset 0 fails with "unexpected address 0" for
every string handler, nullable or not, and every memory; `Read` returns absent
only from a nullable handler at a non-zero offset whose stored pointer is 0,
and in that case it does return absent. -/
theorem C6_read_offset_zero (h : stringHandler) (m : Memory) :
    h.Read m 0 = .error .addressZero ∧
    (∀ o, h.Read m o = .ok .absent →
      h.nullable = true ∧ o ≠ 0 ∧ m.ReadUint32Le o = some 0) ∧
    (∀ o, h.nullable = true → o ≠ 0 → m.ReadUint32Le o = some 0 →
      h.Read m o = .ok .absent) := by
  refine ⟨rfl, fun o ha => ?_, fun o hn ho hp => ?_⟩
  · unfold stringHandler.Read at ha
    split at ha
    · cases ha
    · rename_i ho
      split at ha
      · cases ha
      · rename_i ptr hptr
        obtain ⟨h0, hn⟩ := stringHandler.doReadString_absent h m ptr ha
        rw [h0] at hptr
        exact ⟨hn, ho, hptr⟩
  · simp [stringHandler.Read, stringHandler.doReadString, ho, hp, hn]

/-- Claim C6, amended, on a zeroed memory: the pointer stored at offset 4 is 0. -/
theorem C6_read_offset_zero_witness :
    stringHandler.Read ⟨true⟩ (zeros 8) 4 = .ok .absent ∧
    (true = true ∧ 4 ≠ 0 ∧ Memory.ReadUint32Le (zeros 8) 4 = some 0) :=
  ⟨(C6_read_offset_zero ⟨true⟩ (zeros 8)).2.2 4 rfl (by decide) (by decide),
   (C6_read_offset_zero ⟨true⟩ (zeros 8)).2.1 4 (by decide)⟩

/-- Claim C7. For the nullable string handler and an offset `o` with four bytes of
memory at it, `Write o absent` succeeds with the empty cleaner, makes no
allocation request, leaves the word 0 at `o`, keeps the memory size and every
byte outside `[o, o+4)`; `Encode absent` returns the single slot 0 with the
empty cleaner and leaves the adapter as it was. -/
theorem C7_nullable_write_absent (ts : Time → String)
    (alloc : Allocator) (wa : WasmAdapter) (o : Nat)
    (ho : o + 4 ≤ wa.mem.length) :
    (stringHandler.Write ⟨true⟩ ts alloc wa o .absent).1 = { cln := [], err := none } ∧
    (stringHandler.Write ⟨true⟩ ts alloc wa o .absent).2.allocCalls = wa.allocCalls ∧
    (stringHandler.Write ⟨true⟩ ts alloc wa o .absent).2.mem.ReadUint32Le o = some 0 ∧
    (stringHandler.Write ⟨true⟩ ts alloc wa o .absent).2.mem.length = wa.mem.length ∧
    (∀ i, i < o ∨ o + 4 ≤ i →
      (stringHandler.Write ⟨true⟩ ts alloc wa o .absent).2.mem[i]? = wa.mem[i]?) ∧
    stringHandler.Encode ⟨true⟩ ts alloc wa .absent
      = ({ vals := some [0], cln := [], err := none }, wa) := by
  have hw : wa.mem.WriteUint32Le o 0
      = some (wa.mem.take o ++ leBytes 4 0 ++ wa.mem.drop (o + 4)) := by
    unfold Memory.WriteUint32Le Memory.Write
    rw [if_pos (by simpa [leBytes_length] using ho)]
    simp [leBytes_length]
  have hW : stringHandler.Write ⟨true⟩ ts alloc wa o .absent
      = ({ cln := [], err := none },
         { wa with mem := wa.mem.take o ++ leBytes 4 0 ++ wa.mem.drop (o + 4) }) := by
    simp only [stringHandler.Write, stringHandler.doWriteString, HasNil, if_true, hw]
  have hw2 : wa.mem.Write o (leBytes 4 0)
      = some (wa.mem.take o ++ leBytes 4 0 ++ wa.mem.drop (o + 4)) := hw
  rw [hW]
  refine ⟨rfl, rfl, ?_, Memory.Write_length hw2, fun i hi => ?_, rfl⟩
  · show Option.map leNat (Memory.Read _ o 4) = some 0
    have := Memory.Read_Write_same hw2
    rw [leBytes_length] at this
    rw [this]; rfl
  · exact Memory.Write_getElem_outside hw2 i (by rw [leBytes_length]; exact hi)

/-- Claim C7 on a memory of eight bytes `0xFF`, offset 2. -/
theorem C7_nullable_write_absent_witness :
    (stringHandler.Write ⟨true⟩ utcString bumpAlloc ⟨ones 8, []⟩ 2 .absent).1
      = { cln := [], err := none } ∧
    (stringHandler.Write ⟨true⟩ utcString bumpAlloc ⟨ones 8, []⟩ 2 .absent).2
      = ⟨[255, 255, 0, 0, 0, 0, 255, 255], []⟩ :=
  ⟨(C7_nullable_write_absent utcString bumpAlloc ⟨ones 8, []⟩ 2 (by decide)).1, by decide⟩

/-- Claim C8 as stated fails at offset 0: writing 2024-01-02T03:04:05Z at offset 0
of a 20-byte memory succeeds, and reading offset 0 does not return it. -/
theorem C8_time_write_read_counterexample :
    ¬ ((timeHandler.Write ⟨⟩ ⟨zeros 20, []⟩ 0 (.timestamp t20240102)).1.err = none →
        ∃ t : Time,
          timeHandler.Read ⟨⟩
            (timeHandler.Write ⟨⟩ ⟨zeros 20, []⟩ 0 (.timestamp t20240102)).2.mem 0
            = .ok (.timestamp t) ∧
          t.wall = t20240102.wall ∧ t.ext = t20240102.ext) := by
  intro hc
  obtain ⟨t, ht, _⟩ := hc (by decide)
  have habs : timeHandler.Read ⟨⟩
      (timeHandler.Write ⟨⟩ ⟨zeros 20, []⟩ 0 (.timestamp t20240102)).2.mem 0
      = .ok .absent := by decide
  rw [habs] at ht
  cases ht

/-- Claim C8, amended. For every timestamp whose words fit their machine types
and every non-zero offset `o`, after `Write o t` succeeds `Read o` on the
resulting memory returns the timestamp with the words `(wall, ext)` of `t` and
no location (UTC); `Read 0` returns `absent` on every memory. -/
theorem C8_time_write_read (h : timeHandler) (wa : WasmAdapter) (o : Nat) (t : Time)
    (hv : t.valid) (ho : o ≠ 0)
    (hs : (h.Write wa o (.timestamp t)).1.err = none) :
    h.Read (h.Write wa o (.timestamp t)).2.mem o
      = .ok (.timestamp { wall := t.wall, ext := t.ext, loc := none }) ∧
    (∀ m : Memory, h.Read m 0 = .ok .absent) := by
  refine ⟨?_, fun _ => rfl⟩
  obtain ⟨m1, m2, h1, h2, hW⟩ := timeHandler.Write_success h wa o t hs
  obtain ⟨hw, he1, he2⟩ := hv
  rw [hW]
  have r1 : m2.Read o 8 = some (leBytes 8 t.wall) := by
    rw [Memory.Read_Write_disjoint h2 o 8 (by rw [leBytes_length]; unfold U32 at *; omega)]
    have := Memory.Read_Write_same h1
    rwa [leBytes_length] at this
  have r2 : m2.Read ((o + 8) % U32) 8 = some (leBytes 8 (toU64 t.ext)) := by
    have := Memory.Read_Write_same h2
    rwa [leBytes_length] at this
  have w1 : leNat (leBytes 8 t.wall) = t.wall := by
    rw [leNat_leBytes]; unfold U64 at hw; omega
  have w2 : leNat (leBytes 8 (toU64 t.ext)) = toU64 t.ext := by
    rw [leNat_leBytes]; have := toU64_lt t.ext; unfold U64 at this; omega
  simp only [timeHandler.Read, if_neg ho, Memory.ReadUint64Le, r1, r2, Option.map_some',
    w1, w2, toI64_toU64 t.ext he1 he2, timeFromVals]

/-- Claim C8, amended, at offset 4 of a zeroed memory. -/
theorem C8_time_write_read_witness :
    timeHandler.Read ⟨⟩
        (timeHandler.Write ⟨⟩ ⟨zeros 24, []⟩ 4 (.timestamp t20240102)).2.mem 4
      = .ok (.timestamp { wall := 0, ext := 63839761445, loc := none }) :=
  (C8_time_write_read ⟨⟩ ⟨zeros 24, []⟩ 4 t20240102 (by decide) (by decide) (by decide)).1

/-- Claim C9 as stated fails: after a successful `Write` at offset 0 of a memory
of twenty bytes `0xFF`, the four bytes at 16 are not zero. -/
theorem C9_time_write_layout_counterexample :
    ¬ ((timeHandler.Write ⟨⟩ ⟨ones 20, []⟩ 0 (.timestamp t20240102)).1.err = none →
        (timeHandler.Write ⟨⟩ ⟨ones 20, []⟩ 0 (.timestamp t20240102)).2.mem.ReadUint64Le 0
          = some t20240102.wall ∧
        (timeHandler.Write ⟨⟩ ⟨ones 20, []⟩ 0 (.timestamp t20240102)).2.mem.ReadUint64Le 8
          = some (toU64 t20240102.ext) ∧
        (timeHandler.Write ⟨⟩ ⟨ones 20, []⟩ 0 (.timestamp t20240102)).2.mem.Read 16 4
          = some [0, 0, 0, 0]) := by
  decide

/-- Claim C9, amended. After `Write o t` succeeds, the 8 bytes at `o` hold `wall`
little-endian, the 8 bytes at `o + 8` (computed in `uint32`) hold `ext` as a
`uint64`, the memory size is unchanged, every byte outside those two windows
is unchanged, and in particular the 4 bytes at `o + 16` are read exactly as
before the write. -/
theorem C9_time_write_layout (h : timeHandler) (wa : WasmAdapter) (o : Nat) (t : Time)
    (hv : t.valid)
    (hs : (h.Write wa o (.timestamp t)).1.err = none) :
    (h.Write wa o (.timestamp t)).2.mem.Read o 8 = some (leBytes 8 t.wall) ∧
    (h.Write wa o (.timestamp t)).2.mem.ReadUint64Le o = some t.wall ∧
    (h.Write wa o (.timestamp t)).2.mem.Read ((o + 8) % U32) 8
      = some (leBytes 8 (toU64 t.ext)) ∧
    (h.Write wa o (.timestamp t)).2.mem.ReadUint64Le ((o + 8) % U32) = some (toU64 t.ext) ∧
    (h.Write wa o (.timestamp t)).2.mem.length = wa.mem.length ∧
    (∀ i, (i < o ∨ o + 8 ≤ i) → (i < (o + 8) % U32 ∨ (o + 8) % U32 + 8 ≤ i) →
      (h.Write wa o (.timestamp t)).2.mem[i]? = wa.mem[i]?) ∧
    (h.Write wa o (.timestamp t)).2.mem.Read (o + 16) 4 = wa.mem.Read (o + 16) 4 := by
  obtain ⟨m1, m2, h1, h2, hW⟩ := timeHandler.Write_success h wa o t hs
  obtain ⟨hw, he1, he2⟩ := hv
  rw [hW]
  have r1 : m2.Read o 8 = some (leBytes 8 t.wall) := by
    rw [Memory.Read_Write_disjoint h2 o 8 (by rw [leBytes_length]; unfold U32 at *; omega)]
    have := Memory.Read_Write_same h1
    rwa [leBytes_length] at this
  have r2 : m2.Read ((o + 8) % U32) 8 = some (leBytes 8 (toU64 t.ext)) := by
    have := Memory.Read_Write_same h2
    rwa [leBytes_length] at this
  have w1 : leNat (leBytes 8 t.wall) = t.wall := by
    rw [leNat_leBytes]; unfold U64 at hw; omega
  have w2 : leNat (leBytes 8 (toU64 t.ext)) = toU64 t.ext := by
    rw [leNat_leBytes]; have := toU64_lt t.ext; unfold U64 at this; omega
  refine ⟨r1, ?_, r2, ?_, ?_, fun i hi1 hi2 => ?_, ?_⟩
  · simp only [Memory.ReadUint64Le, r1, Option.map_some', w1]
  · simp only [Memory.ReadUint64Le, r2, Option.map_some', w2]
  · show m2.length = _
    rw [Memory.Write_length h2, Memory.Write_length h1]
  · show m2[i]? = _
    rw [Memory.Write_getElem_outside h2 i (by rw [leBytes_length]; exact hi2),
      Memory.Write_getElem_outside h1 i (by rw [leBytes_length]; exact hi1)]
  · show m2.Read _ _ = _
    rw [Memory.Read_Write_disjoint h2 _ _ (by rw [leBytes_length]; unfold U32 at *; omega),
      Memory.Read_Write_disjoint h1 _ _ (by rw [leBytes_length]; omega)]

/-- Claim C9, amended, on a memory of twenty bytes `0xFF`. -/
theorem C9_time_write_layout_witness :
    (timeHandler.Write ⟨⟩ ⟨ones 20, []⟩ 0 (.timestamp t20240102)).2.mem.ReadUint64Le 0
      = some 0 ∧
    (timeHandler.Write ⟨⟩ ⟨ones 20, []⟩ 0 (.timestamp t20240102)).2.mem.ReadUint64Le 8
      = some 63839761445 ∧
    (timeHandler.Write ⟨⟩ ⟨ones 20, []⟩ 0 (.timestamp t20240102)).2.mem.Read 16 4
      = some [255, 255, 255, 255] :=
  ⟨(C9_time_write_layout ⟨⟩ ⟨ones 20, []⟩ 0 t20240102 (by decide) (by decide)).2.1,
   (C9_time_write_layout ⟨⟩ ⟨ones 20, []⟩ 0 t20240102 (by decide) (by decide)).2.2.2.1,
   by decide⟩

/-- Claim C10. For every timestamp whose words fit their machine types, `Encode`
succeeds with the three slots `[wall, uint64(ext), 0]`, the empty cleaner and an
untouched adapter; `uint64(ext)` is a 64-bit value from which `int64` gives
back `ext`, also when negative; `Decode` of the three slots returns the
timestamp with the same `(wall, ext)` and no location (UTC). -/
theorem C10_time_encode_decode (h : timeHandler) (wa : WasmAdapter) (t : Time)
    (hv : t.valid) :
    h.Encode wa (.timestamp t)
      = ({ vals := some [t.wall, toU64 t.ext, 0], cln := [], err := none }, wa) ∧
    toU64 t.ext < U64 ∧
    toI64 (toU64 t.ext) = t.ext ∧
    h.Decode wa.mem [t.wall, toU64 t.ext, 0]
      = .ok (.timestamp { wall := t.wall, ext := t.ext, loc := none }) := by
  obtain ⟨_, he1, he2⟩ := hv
  refine ⟨rfl, toU64_lt _, toI64_toU64 _ he1 he2, ?_⟩
  simp only [timeHandler.Decode, timeFromVals, toI64_toU64 _ he1 he2]

/-- Claim C10 on a timestamp with a negative `ext` and a location. -/
theorem C10_time_encode_decode_witness :
    timeHandler.Encode ⟨⟩ ⟨zeros 4, []⟩ (.timestamp { wall := 7, ext := -5, loc := some 3 })
      = ({ vals := some [7, 18446744073709551611, 0], cln := [], err := none },
         ⟨zeros 4, []⟩) ∧
    timeHandler.Decode ⟨⟩ (zeros 4) [7, 18446744073709551611, 0]
      = .ok (.timestamp { wall := 7, ext := -5, loc := none }) :=
  ⟨(C10_time_encode_decode ⟨⟩ ⟨zeros 4, []⟩ { wall := 7, ext := -5, loc := some 3 }
      (by decide)).1,
   (C10_time_encode_decode ⟨⟩ ⟨zeros 4, []⟩ { wall := 7, ext := -5, loc := some 3 }
      (by decide)).2.2.2⟩

/-- Claim C11. The time handler's `Read` does not depend on the loc pointer: when
the window `[o, o+16)` lies in the 32-bit address space and two memories agree
on every byte of it (present with the same value, or missing in both), `Read o`
returns the same result on both; every timestamp `Read` returns has no
location (UTC); `Decode` returns the same result whatever the third slot and
the memory are, and every timestamp it returns has no location. -/
theorem C11_time_read_ignores_loc (h : timeHandler) (m1 m2 : Memory) (o : Nat)
    (ho : o + 16 ≤ U32)
    (hagree : ∀ i, o ≤ i → i < o + 16 → m1[i]? = m2[i]?) :
    h.Read m1 o = h.Read m2 o ∧
    (∀ (m : Memory) (a : Nat) (t : Time), h.Read m a = .ok (.timestamp t) → t.loc = none) ∧
    (∀ (ma mb : Memory) (w x l1 l2 : Nat), h.Decode ma [w, x, l1] = h.Decode mb [w, x, l2]) ∧
    (∀ (m : Memory) (vals : List Nat) (t : Time),
      h.Decode m vals = .ok (.timestamp t) → t.loc = none) := by
  have ha : (o + 8) % U32 = o + 8 := Nat.mod_eq_of_lt (by omega)
  have r1 : m1.Read o 8 = m2.Read o 8 :=
    Memory.Read_congr o 8 (by decide) (fun i h1 h2 => hagree i h1 (by omega))
  have r2 : m1.Read (o + 8) 8 = m2.Read (o + 8) 8 :=
    Memory.Read_congr (o + 8) 8 (by decide) (fun i h1 h2 => hagree i (by omega) (by omega))
  refine ⟨?_, ?_, fun _ _ _ _ _ _ => rfl, ?_⟩
  · simp only [timeHandler.Read, Memory.ReadUint64Le, ha, r1, r2]
  · intro m a t ht
    unfold timeHandler.Read at ht
    split at ht
    · cases ht
    · split at ht
      · cases ht
      · split at ht
        · cases ht
        · injection ht with ht
          injection ht with ht
          rw [← ht]; rfl
  · intro m vals t ht
    unfold timeHandler.Decode at ht
    split at ht
    · injection ht with ht
      injection ht with ht
      rw [← ht]; rfl
    · cases ht

/-- Claim C11 on two memories that differ outside the window at offset 4. -/
theorem C11_time_read_ignores_loc_witness :
    timeHandler.Read ⟨⟩ timeMemA 4 = timeHandler.Read ⟨⟩ timeMemB 4 ∧
    timeHandler.Read ⟨⟩ timeMemB 4 = .ok (.timestamp { wall := 1, ext := 2, loc := none }) :=
  ⟨(C11_time_read_ignores_loc ⟨⟩ timeMemA timeMemB 4 (by decide) (by decide)).1, by decide⟩

/-- Claim C14. The string handler keeps the cleanup token after allocation. For an
input that is not absent and converts to the text `s`, when allocate-and-pin
succeeded: if `Write` fails, it is because the bytes could not be stored at the
pointer or the pointer could not be stored at the offset, and the cleaner
returned with the error is the allocator's; if `Encode` fails, it is because
the bytes could not be stored, and again the allocator's cleaner is returned.
For an absent input or one that `cast.ToStringE` rejects, no allocation is
requested and the cleaner returned is empty. A timestamp is not such an input:
it converts through `time.Time.String` (`ts`), so `Encode` requests the
allocation for its rendering and returns the allocator's cleaner. -/
theorem C14_string_cleanup_kept (h : stringHandler) (ts : Time → String)
    (alloc : Allocator) (wa : WasmAdapter)
    (o : Nat) (obj : HostValue) (s : String)
    (hnn : HasNil obj = false) (hs : ToStringE ts obj = .ok s)
    (hal : (alloc wa.mem ((EncodeUTF16 s).length % U32) 2).err = none) :
    ((h.Write ts alloc wa o obj).1.err ≠ none →
      (h.Write ts alloc wa o obj).1.cln = (alloc wa.mem ((EncodeUTF16 s).length % U32) 2).cln ∧
      ((h.Write ts alloc wa o obj).1.err = some (.writeData ((EncodeUTF16 s).length % U32)) ∨
       (h.Write ts alloc wa o obj).1.err = some .writePointer)) ∧
    ((h.Encode ts alloc wa obj).1.err ≠ none →
      (h.Encode ts alloc wa obj).1.cln = (alloc wa.mem ((EncodeUTF16 s).length % U32) 2).cln ∧
      (h.Encode ts alloc wa obj).1.err = some (.writeData ((EncodeUTF16 s).length % U32))) ∧
    (∀ obj2 : HostValue, (HasNil obj2 = true ∨ ∃ e, ToStringE ts obj2 = .error e) →
      (h.Write ts alloc wa o obj2).1.cln = [] ∧
      (h.Write ts alloc wa o obj2).2.allocCalls = wa.allocCalls ∧
      (h.Encode ts alloc wa obj2).1.cln = [] ∧
      (h.Encode ts alloc wa obj2).2 = wa) ∧
    (∀ t : Time,
      (h.Encode ts alloc wa (.timestamp t)).2.allocCalls
        = wa.allocCalls ++ [((EncodeUTF16 (ts t)).length % U32, 2)] ∧
      (h.Encode ts alloc wa (.timestamp t)).1.cln
        = (alloc wa.mem ((EncodeUTF16 (ts t)).length % U32) 2).cln) := by
  have hd := stringHandler.doWriteString_coerced h ts alloc wa obj s hnn hs
  refine ⟨fun hf => ⟨?_, ?_⟩, fun hf => ⟨?_, ?_⟩, fun obj2 h2 => ?_, fun t => ?_⟩
  · rw [stringHandler.Write_cln, hd, stringHandler.doWriteBytes_cln]
  · rw [stringHandler.Write_unfold, hd] at hf ⊢
    cases hw : (alloc wa.mem ((EncodeUTF16 s).length % U32) 2).mem.Write
        (alloc wa.mem ((EncodeUTF16 s).length % U32) 2).ptr (EncodeUTF16 s) with
    | none =>
      rw [stringHandler.doWriteBytes_writeErr alloc wa _ hal hw]
      exact Or.inl rfl
    | some m2 =>
      rw [stringHandler.doWriteBytes_ok alloc wa _ m2 hal hw] at hf ⊢
      simp only at hf ⊢
      split
      · exact Or.inr rfl
      · rename_i m3 hm3
        rw [hm3] at hf
        exact absurd rfl hf
  · rw [stringHandler.Encode_cln, hd, stringHandler.doWriteBytes_cln]
  · rw [stringHandler.Encode_eq, hd] at hf ⊢
    cases hw : (alloc wa.mem ((EncodeUTF16 s).length % U32) 2).mem.Write
        (alloc wa.mem ((EncodeUTF16 s).length % U32) 2).ptr (EncodeUTF16 s) with
    | none =>
      rw [stringHandler.doWriteBytes_writeErr alloc wa _ hal hw]
    | some m2 =>
      rw [stringHandler.doWriteBytes_ok alloc wa _ m2 hal hw] at hf
      exact absurd rfl hf
  · obtain ⟨e1, e2⟩ := stringHandler.doWriteString_early h ts alloc wa obj2 h2
    refine ⟨?_, ?_, ?_, ?_⟩
    · rw [stringHandler.Write_cln, e1]
    · rw [stringHandler.Write_allocCalls, e2]
    · rw [stringHandler.Encode_cln, e1]
    · rw [stringHandler.Encode_eq, e2]
  · have ht := stringHandler.doWriteString_coerced h ts alloc wa (.timestamp t) (ts t) rfl rfl
    refine ⟨?_, ?_⟩
    · rw [stringHandler.Encode_eq, ht, stringHandler.doWriteBytes_allocCalls]
    · rw [stringHandler.Encode_cln, ht, stringHandler.doWriteBytes_cln]

/-- Claim C14 on two failing calls (the pointer store fails, the byte store
fails) and on a timestamp, whose rendering of 29 characters is allocated. -/
theorem C14_string_cleanup_kept_witness :
    ((stringHandler.Write ⟨false⟩ utcString bumpAlloc ⟨zeros 32, []⟩ 100 (.text "héllo")).1
        = { cln := [16], err := some .writePointer }) ∧
    ((stringHandler.Encode ⟨false⟩ utcString bumpAlloc ⟨zeros 18, []⟩ (.text "héllo")).1
        = { vals := none, cln := [16], err := some (.writeData 10) }) ∧
    (stringHandler.Write ⟨false⟩ utcString bumpAlloc ⟨zeros 32, []⟩ 100 (.text "héllo")).1.cln
        = (bumpAlloc (zeros 32) 10 2).cln ∧
    ((stringHandler.Encode ⟨false⟩ utcString bumpAlloc ⟨zeros 80, []⟩
        (.timestamp t20240102)).1 = { vals := some [16], cln := [16], err := none }) ∧
    (stringHandler.Encode ⟨false⟩ utcString bumpAlloc ⟨zeros 80, []⟩
        (.timestamp t20240102)).2.allocCalls = [] ++ [(58, 2)] :=
  ⟨by decide, by decide,
   ((C14_string_cleanup_kept ⟨false⟩ utcString bumpAlloc ⟨zeros 32, []⟩ 100 (.text "héllo")
      "héllo" (by decide) (by decide) (by decide)).1 (by decide)).1,
   by decide,
   ((C14_string_cleanup_kept ⟨false⟩ utcString bumpAlloc ⟨zeros 80, []⟩ 0 (.text "héllo")
      "héllo" (by decide) (by decide) (by decide)).2.2.2 t20240102).1⟩

/-- Claim C15. Slot counts: the string handler declares 1 slot and the time handler
3; every successful `Encode` returns exactly that many slots; `Decode` of a
slot vector of any other length fails with the same error on every memory. -/
theorem C15_slot_count_agreement (isNullable : String → Bool) (typ : String) :
    (NewStringHandler isNullable typ).1.slotCount = 1 ∧
    (NewTimeHandler typ).1.slotCount = 3 ∧
    (∀ (h : stringHandler) (ts : Time → String) (alloc : Allocator) (wa : WasmAdapter) (obj : HostValue),
      (h.Encode ts alloc wa obj).1.err = none →
      ∃ vs, (h.Encode ts alloc wa obj).1.vals = some vs ∧
        vs.length = (NewStringHandler isNullable typ).1.slotCount) ∧
    (∀ (h : timeHandler) (wa : WasmAdapter) (obj : HostValue),
      (h.Encode wa obj).1.err = none →
      ∃ vs, (h.Encode wa obj).1.vals = some vs ∧
        vs.length = (NewTimeHandler typ).1.slotCount) ∧
    (∀ (h : stringHandler) (m : Memory) (vals : List Nat),
      vals.length ≠ (NewStringHandler isNullable typ).1.slotCount →
      h.Decode m vals = .error (.slotCount vals.length)) ∧
    (∀ (h : timeHandler) (m : Memory) (vals : List Nat),
      vals.length ≠ (NewTimeHandler typ).1.slotCount →
      h.Decode m vals = .error .decodeTime) := by
  refine ⟨rfl, rfl, ?_, ?_, ?_, ?_⟩
  · intro h ts alloc wa obj hs
    rw [stringHandler.Encode_eq] at hs ⊢
    cases he : (h.doWriteString ts alloc wa obj).1.err with
    | some e => rw [he] at hs; cases hs
    | none => exact ⟨[(h.doWriteString ts alloc wa obj).1.ptr], rfl, rfl⟩
  · intro h wa obj hs
    cases obj <;> first | exact ⟨_, rfl, rfl⟩ | cases hs
  · intro h m vals hl
    match vals, hl with
    | [], _ => rfl
    | [v], hl => exact absurd rfl hl
    | _ :: _ :: _, _ => rfl
  · intro h m vals hl
    match vals, hl with
    | [], _ => rfl
    | [_], _ => rfl
    | [_, _], _ => rfl
    | [_, _, _], hl => exact absurd rfl hl
    | _ :: _ :: _ :: _ :: _, _ => rfl

/-- Claim C15 on slot vectors of length two and a successful time `Encode`. -/
theorem C15_slot_count_agreement_witness :
    stringHandler.Decode ⟨true⟩ (zeros 8) [0, 0] = .error (.slotCount 2) ∧
    timeHandler.Decode ⟨⟩ (zeros 8) [1, 2] = .error .decodeTime ∧
    (∃ vs, (timeHandler.Encode ⟨⟩ ⟨zeros 8, []⟩ (.timestamp t20240102)).1.vals = some vs ∧
      vs.length = 3) :=
  ⟨(C15_slot_count_agreement (fun _ => true) "string | null").2.2.2.2.1 ⟨true⟩ (zeros 8)
      [0, 0] (by decide),
   (C15_slot_count_agreement (fun _ => true) "string | null").2.2.2.2.2 ⟨⟩ (zeros 8)
      [1, 2] (by decide),
   (C15_slot_count_agreement (fun _ => true) "string | null").2.2.2.1 ⟨⟩ ⟨zeros 8, []⟩
      (.timestamp t20240102) (by decide)⟩

/-- Claim C12. The registry is rebuilt: for every prior `Functions` map (and heap
of plugin variables) and every plugin list, under either loop-variable
semantics, every name resolves after `RegisterFunctions` exactly as it does
when `RegisterFunctions` runs on the empty registry (signature and the plugin
the pointer leads to); a name is a key iff some plugin of the list declares a
function of that name; and the signature stored under a name is the one
declared under it by the last plugin of the list that declares it. -/
theorem C12_registry_rebuild (perIteration : Bool) (F : GoMap FunctionInfo)
    (heap : List Plugin) (ps : List Plugin) :
    (∀ name, registryView (RegisterFunctions perIteration F heap ps) name
      = registryView (RegisterFunctions perIteration [] [] ps) name) ∧
    (∀ name, ((RegisterFunctions perIteration F heap ps).1.get name).isSome = true
      ↔ ∃ p ∈ ps, ∃ f ∈ p.Functions, f.Name = name) ∧
    (∀ name info, (RegisterFunctions perIteration F heap ps).1.get name = some info →
      ∃ pre q post, ps = pre ++ q :: post ∧
        lastIn q.Functions name = some info.Function ∧
        info.Function ∈ q.Functions ∧ info.Function.Name = name ∧
        ∀ r ∈ post, ∀ f ∈ r.Functions, f.Name ≠ name) := by
  refine ⟨fun name => ?_, fun name => ?_, fun name info hinfo => ?_⟩
  · rw [registryView_RegisterFunctions, registryView_RegisterFunctions]
  · rw [← registryView_isSome, registryView_RegisterFunctions, Option.isSome_map',
      lastDecl_isSome_iff]
  · have hv := registryView_RegisterFunctions perIteration F heap ps name
    unfold registryView at hv
    rw [hinfo] at hv
    cases hl : lastDecl ps name with
    | none => rw [hl] at hv; cases hv
    | some x =>
      rw [hl] at hv
      simp only [Option.map_some', Option.some.injEq, Prod.mk.injEq] at hv
      obtain ⟨pre, post, h1, h2, h3⟩ := lastDecl_some_split hl
      rw [← hv.1] at h2
      exact ⟨pre, x.2, post, h1, h2, (lastIn_some h2).1, (lastIn_some h2).2, h3⟩

/-- Claim C12 on a prior registry with a stale entry and an outdated one. -/
theorem C12_registry_rebuild_witness :
    ((RegisterFunctions false staleRegistry.1 staleRegistry.2 [pluginAlpha, pluginBeta]).1.get
        "old" = none) ∧
    (∃ pre q post, [pluginAlpha, pluginBeta] = pre ++ q :: post ∧
        lastIn q.Functions "a"
          = some ({ Name := "a", Parameters := [], ReturnType := "string" } : FunctionSignature) ∧
        ({ Name := "a", Parameters := [], ReturnType := "string" } : FunctionSignature)
          ∈ q.Functions ∧
        ({ Name := "a", Parameters := [], ReturnType := "string" } : FunctionSignature).Name
          = "a" ∧
        ∀ r ∈ post, ∀ f ∈ r.Functions, f.Name ≠ "a") :=
  ⟨by decide,
   (C12_registry_rebuild false staleRegistry.1 staleRegistry.2 [pluginAlpha, pluginBeta]).2.2
      "a" { Function := { Name := "a", Parameters := [], ReturnType := "string" }, Plugin := 1 }
      (by decide)⟩


/-- Claim C13. For an event whose exceptions all carry a stack trace,
`sentryBeforeSend` returns; it returns nil iff `Extra["user_visible"]` is the
string `"true"`, and then the event is untouched; otherwise it returns the
pointer it was given, to the same event with `Extra` unchanged and the frames'
file names made relative to the root. -/
theorem C13_user_visible_suppressed (root : String) (event : Nat) (ev : Event)
    (hst : ∀ e ∈ ev.Exception, e.Stacktrace ≠ none) :
    ∃ (r : Option Nat) (ev2 : Event),
      sentryBeforeSend root event ev = .returns (r, ev2) ∧
      (r = none ↔ ev.Extra.get "user_visible" = some (.text "true")) ∧
      (r ≠ none → r = some event) ∧
      (r = none → ev2 = ev) ∧
      ev2.Extra = ev.Extra ∧
      (r ≠ none → ev2.Exception = ev.Exception.map (adjustException root)) := by
  have h1 := adjustExceptions_returns root ev.Exception hst
  by_cases huv : ev.Extra.get "user_visible" = some (.text "true")
  · refine ⟨none, ev, ?_, ?_, ?_, fun _ => rfl, rfl, ?_⟩
    · simp only [sentryBeforeSend, if_pos huv]
    · simp [huv]
    · intro h; exact absurd rfl h
    · intro h; exact absurd rfl h
  · refine ⟨some event, { ev with Exception := ev.Exception.map (adjustException root) },
      ?_, ?_, fun _ => rfl, ?_, rfl, fun _ => rfl⟩
    · simp only [sentryBeforeSend, if_neg huv, h1]
    · simp [huv]
    · intro h; cases h

/-- Claim C13 on an event whose `user_visible` entry is not the string `"true"`. -/
theorem C13_user_visible_suppressed_witness :
    ∃ (r : Option Nat) (ev2 : Event),
      sentryBeforeSend "/src" 7 internalEvent = .returns (r, ev2) ∧
      (r = none ↔ internalEvent.Extra.get "user_visible" = some (.text "true")) ∧
      (r ≠ none → r = some 7) ∧
      (r = none → ev2 = internalEvent) ∧
      ev2.Extra = internalEvent.Extra ∧
      (r ≠ none → ev2.Exception = internalEvent.Exception.map (adjustException "/src")) :=
  C13_user_visible_suppressed "/src" 7 internalEvent (by decide)


/-- The two loop-variable semantics on `pluginAlpha` (declares `a`) followed by
`pluginBeta` (declares `b`): with one variable for the whole loop both entries
carry the same pointer and the entry of `a` leads to `pluginBeta`; with one
variable per iteration it leads to `pluginAlpha`. -/
theorem registry_plugin_example :
    registryView (RegisterFunctions false [] [] [pluginAlpha, pluginBeta]) "a"
      = some ({ Name := "a", Parameters := [], ReturnType := "string" }, some pluginBeta) ∧
    registryView (RegisterFunctions true [] [] [pluginAlpha, pluginBeta]) "a"
      = some ({ Name := "a", Parameters := [], ReturnType := "string" }, some pluginAlpha) ∧
    pluginBeta ≠ pluginAlpha := by
  decide

/-- Claim C17. On a document whose field references are in range,
`getAllQueryFields` returns the non-nil slice of the field names, in declaration
order, of the first object type named like the query type, without the names
starting with `__` (`queryFieldsSpec`); the empty non-nil slice when no object
type has that name; and every returned name is the name of a field referenced
by that first matching type. -/
theorem C17_query_fields (doc : Document) (queryTypeName : String)
    (hwf : ∀ t ∈ doc.ObjectTypeDefinitions, ∀ r ∈ t.FieldsDefinition,
      r < doc.FieldDefinitions.length) :
    getAllQueryFields doc queryTypeName = .returns (some (queryFieldsSpec doc queryTypeName)) ∧
    ((∀ t ∈ doc.ObjectTypeDefinitions, t.Name ≠ queryTypeName) →
      getAllQueryFields doc queryTypeName = .returns (some [])) ∧
    (∀ n ∈ queryFieldsSpec doc queryTypeName,
      HasPrefix n "__" = false ∧
      ∃ t, doc.ObjectTypeDefinitions.find? (fun t => t.Name = queryTypeName) = some t ∧
        ∃ r ∈ t.FieldsDefinition, (doc.FieldDefinitions[r]?).map (fun f => f.Name) = some n) := by
  have hmain : getAllQueryFields doc queryTypeName
      = .returns (some (queryFieldsSpec doc queryTypeName)) :=
    scanObjectTypes_spec doc queryTypeName doc.ObjectTypeDefinitions hwf
  refine ⟨hmain, fun hno => ?_, fun n hn => ?_⟩
  · rw [hmain]
    have hf : doc.ObjectTypeDefinitions.find? (fun t => t.Name = queryTypeName) = none := by
      rw [List.find?_eq_none]
      intro t ht
      simpa using hno t ht
    simp only [queryFieldsSpec, hf]
  · unfold queryFieldsSpec at hn
    cases hf : doc.ObjectTypeDefinitions.find? (fun t => t.Name = queryTypeName) with
    | none => rw [hf] at hn; cases hn
    | some t =>
      rw [hf] at hn
      simp only [List.mem_filter, List.mem_filterMap] at hn
      obtain ⟨⟨r, hr, hrn⟩, hp⟩ := hn
      exact ⟨by simpa using hp, t, rfl, r, hr, hrn⟩

/-- Claim C17 on a document with two types named `Query`. -/
theorem C17_query_fields_witness :
    getAllQueryFields sampleDocument "Query" = .returns (some ["hello", "add"]) ∧
    getAllQueryFields sampleDocument "Mutation" = .returns (some []) :=
  ⟨(C17_query_fields sampleDocument "Query" (by decide)).1,
   (C17_query_fields sampleDocument "Mutation" (by decide)).2.1 (by decide)⟩

end Modus
